import Mathlib

/-!
Verification development for the confinement and lifecycle simulation loop of
the GalacticSpheres component (src/unnamed/part_000 of DevDavidg/sphere-app).

The numeric state (positions, velocities, forces, timers) is embedded over the
real numbers; JavaScript `Math.sqrt`, vector normalisation and comparisons are
modelled exactly.  Index bookkeeping (the sphere registry, driver index,
removal compaction) is embedded over lists and natural numbers and is fully
computable.

The file is organised as: all definitions first, then all lemmas and the
claim theorems.
-/

set_option maxHeartbeats 1000000

set_option autoImplicit false

universe u v

variable {α : Type u}

namespace GalacticSpheres

/-! ## Definitions -/

/-- A 3-component real vector, modelling both `THREE.Vector3` and
`CANNON.Vec3` from the source. -/
@[ext] structure Vec3 where
  x : ℝ
  y : ℝ
  z : ℝ

instance : Zero Vec3 := ⟨⟨0, 0, 0⟩⟩

instance : Add Vec3 := ⟨fun a b => ⟨a.x + b.x, a.y + b.y, a.z + b.z⟩⟩

instance : Neg Vec3 := ⟨fun a => ⟨-a.x, -a.y, -a.z⟩⟩

instance : SMul ℝ Vec3 := ⟨fun c a => ⟨c * a.x, c * a.y, c * a.z⟩⟩

/-- Squared euclidean length, as computed by `x * x + y * y + z * z`
throughout the source. -/
noncomputable def vnormSq (v : Vec3) : ℝ := v.x ^ 2 + v.y ^ 2 + v.z ^ 2

/-- Euclidean length, `Math.sqrt(x * x + y * y + z * z)` in the source. -/
noncomputable def vnorm (v : Vec3) : ℝ := Real.sqrt (vnormSq v)

/-- `CANNON.Vec3.prototype.normalize`: scale by the reciprocal length when the
length is positive, otherwise set the vector to zero. -/
noncomputable def vnormalize (v : Vec3) : Vec3 :=
  if 0 < vnorm v then (1 / vnorm v) • v else 0

/-- The `PhysicsConfig` interface of the source (lines 11-21). -/
structure PhysicsConfig where
  gravity : ℝ
  friction : ℝ
  restitution : ℝ
  dampingFactor : ℝ
  solverIterations : ℕ
  timeStep : ℝ
  boundaryForceMultiplier : ℝ
  centralGravityStrength : ℝ
  exitThreshold : ℝ

/-- The concrete `physicsConfig` value (source lines 79-89). -/
noncomputable def physicsConfig : PhysicsConfig :=
  { gravity := -5.0
    friction := 0.1
    restitution := 0.85
    dampingFactor := 0.08
    solverIterations := 20
    timeStep := 1 / 60
    boundaryForceMultiplier := 150
    centralGravityStrength := 0
    exitThreshold := 1.02 }

/-- The `SphereConfig` interface of the source (lines 23-37; colour fields,
which play no role in any claim, are omitted).  `smallCount` is kept as a
real number because the source uses it in JavaScript real-valued arithmetic
(`sphereConfig.smallCount / 2`). -/
structure SphereConfig where
  mainRadius : ℝ
  smallCount : ℝ
  smallMinRadius : ℝ
  smallMaxRadius : ℝ
  cueBallRadius : ℝ
  cueBallMass : ℝ
  cueBallImpulseFactor : ℝ
  regenerationInterval : ℝ
  popupDuration : ℝ
  popupScale : ℝ
  newSphereImpulseFactor : ℝ

/-- The concrete `sphereConfig` value (source lines 91-105). -/
noncomputable def sphereConfig : SphereConfig :=
  { mainRadius := 5.0
    smallCount := 14
    smallMinRadius := 0.2
    smallMaxRadius := 0.6
    cueBallRadius := 0.5
    cueBallMass := 5.0
    cueBallImpulseFactor := 40.0
    regenerationInterval := 10000
    popupDuration := 800
    popupScale := 1.5
    newSphereImpulseFactor := 40.0 }

/-- Render-side handle of a sphere: the `THREE.Mesh` together with its
`SphereUserData` (source lines 39-43, 327-338).  `meshId` models JavaScript
object identity of the mesh, which the source relies on implicitly. -/
structure Mesh where
  meshId : ℕ
  hasLight : Bool
  lightIndex : ℤ
  isCueBall : Bool

/-- Physics-side handle of a sphere: the dynamical fields of a `CANNON.Body`
used by the animation loop.  `force` is the body's force accumulator, to
which `applyForce` adds. -/
structure Body where
  position : Vec3
  velocity : Vec3
  force : Vec3
  mass : ℝ

/-- The registry state owned by the simulation loop:
`smallSphereMeshesRef`, `smallSphereBodiesRef`, `cueBallIndexRef`, and the two
per-body liveness tracker arrays `lastVelocities` / `stationaryTimes`
(source lines 57-60, 267-270).  `detached` is an event log recording, in
order, the `lightIndex` of every owned light detached during a removal
(`scene.remove(lightToRemove)` in the source). -/
structure SimState where
  meshes : List Mesh
  bodies : List Body
  cueBallIndex : ℕ
  lastVelocities : List Vec3
  stationaryTimes : List ℝ
  detached : List ℤ

/-- The meshes and bodies arrays are kept in lockstep by the source (both are
always spliced at the same index). -/
def wf (s : SimState) : Prop := s.bodies.length = s.meshes.length

/-- `lastVelocities` initialisation (source lines 267-269): a fixed-length
array sized to the initial population, one zero vector per slot. -/
def initLastVelocities (sphereCount : ℕ) : List Vec3 := List.replicate sphereCount 0

/-- `stationaryTimes` initialisation (source line 270): a fixed-length array
sized to the initial population, filled with zero. -/
def initStationaryTimes (sphereCount : ℕ) : List ℝ := List.replicate sphereCount 0

/-- The detach-light step performed before each removal (source lines 427-435
and 849-857): if the mesh owns a light (`hasLight` and `lightIndex >= 0`) the
light is removed from the scene; we log its index. -/
def detachEvt : Option Mesh → List ℤ
  | none => []
  | some m => if m.hasLight ∧ 0 ≤ m.lightIndex then [m.lightIndex] else []

/-- The single-sphere removal primitive shared by `removeRandomSphere`
(source lines 420-441) and the boundary-ejection compaction loop (source
lines 839-864): decrement the tracked driver index when the removed index
precedes it, detach the owned light, and splice the mesh and body arrays at
the removed index.  The tracker arrays `lastVelocities` and `stationaryTimes`
are not touched by either call site. -/
def removeSphereAt (s : SimState) (i : ℕ) : SimState :=
  { meshes := s.meshes.eraseIdx i
    bodies := s.bodies.eraseIdx i
    cueBallIndex := if i < s.cueBallIndex then s.cueBallIndex - 1 else s.cueBallIndex
    lastVelocities := s.lastVelocities
    stationaryTimes := s.stationaryTimes
    detached := s.detached ++ detachEvt s.meshes[i]? }

/-- Position `j` of the registry holds the driver (cue ball) mesh. -/
def isDriverAt (s : SimState) (j : ℕ) : Prop :=
  ∃ m, s.meshes[j]? = some m ∧ m.isCueBall = true

/-- The driver invariant: the tracked index is in range, and a position holds
the driver mesh exactly when it is the tracked index. -/
def driverOK (s : SimState) : Prop :=
  s.cueBallIndex < s.meshes.length ∧ ∀ j, isDriverAt s j ↔ j = s.cueBallIndex

/-- Erase a strictly ascending list of indices, largest first (the effect of
the source's `for (let i = toRemove.length - 1; i >= 0; i--)` loop on one of
the parallel arrays). -/
def listRemoveAsc (l : List ℕ) (xs : List α) : List α :=
  l.foldr (fun i ys => ys.eraseIdx i) xs

/-- Keep exactly the entries whose position (counted from `n`) satisfies `p`. -/
def keepIdxFrom (p : ℕ → Bool) : ℕ → List α → List α
  | _, [] => []
  | n, a :: xs => if p n then a :: keepIdxFrom p (n + 1) xs else keepIdxFrom p (n + 1) xs

/-- Keep exactly the entries whose position satisfies `p`. -/
def keepIdx (p : ℕ → Bool) (xs : List α) : List α := keepIdxFrom p 0 xs

/-- The compaction loop of the boundary pass (source lines 839-864): marked
indices, collected in ascending scan order in `toRemove`, are removed in
descending index order. -/
def compactMarked (marked : List ℕ) (s : SimState) : SimState :=
  (marked.reverse).foldl removeSphereAt s

/-- The direction from the body toward the center, normalised only when the
distance is positive (source lines 774-804). -/
noncomputable def centerDirectionOf (b : Body) : Vec3 :=
  if vnorm b.position > 0 then (1 / vnorm b.position) • (-b.position) else -b.position

/-- Per-body step of the boundary scan (the `forEach` body, source lines
773-837).  Returns the updated body together with the marked-for-removal
flag (`toRemove.push(index)` in the source).  `isDriver` is
`index === cueBallIndexRef.current`. -/
noncomputable def boundaryUpdateBody (pc : PhysicsConfig) (sc : SphereConfig)
    (isDriver : Bool) (b : Body) : Body × Bool :=
  let effectiveRadius := sc.mainRadius * 0.9
  let distanceFromCenter := vnorm b.position
  if distanceFromCenter > sc.mainRadius * pc.exitThreshold then
    if isDriver then
      ({ b with
          position := (effectiveRadius / distanceFromCenter * 0.7) • b.position
          velocity := 0 }, false)
    else
      (b, true)
  else
    let centerDirection := centerDirectionOf b
    let b1 := { b with force := b.force + pc.centralGravityStrength • centerDirection }
    let b2 :=
      if distanceFromCenter > effectiveRadius * 0.8 then
        let boundaryFactor :=
          ((distanceFromCenter - effectiveRadius * 0.8) / (effectiveRadius * 0.2)) ^ 2
            * pc.boundaryForceMultiplier
        { b1 with
            force := b1.force + boundaryFactor • centerDirection
            velocity := (0.95 : ℝ) • b1.velocity }
      else b1
    let currentVelocity := vnorm b2.velocity
    let b3 :=
      if currentVelocity > 12 then
        { b2 with velocity := (12 / currentVelocity) • b2.velocity }
      else b2
    (b3, false)

/-- The boundary scan over the registry with running index `i`: updates every
body and collects the marked indices in ascending order. -/
noncomputable def boundaryScanAux (pc : PhysicsConfig) (sc : SphereConfig)
    (cue : ℕ) : ℕ → List Body → List Body × List ℕ
  | _, [] => ([], [])
  | i, b :: bs =>
    let r := boundaryUpdateBody pc sc (i == cue) b
    let rest := boundaryScanAux pc sc cue (i + 1) bs
    (r.1 :: rest.1, if r.2 then i :: rest.2 else rest.2)

/-- Updated bodies of the boundary scan. -/
noncomputable def boundaryScanned (pc : PhysicsConfig) (sc : SphereConfig)
    (s : SimState) : List Body :=
  (boundaryScanAux pc sc s.cueBallIndex 0 s.bodies).1

/-- Marked-for-removal indices of the boundary scan (`toRemove`). -/
noncomputable def boundaryMarked (pc : PhysicsConfig) (sc : SphereConfig)
    (s : SimState) : List ℕ :=
  (boundaryScanAux pc sc s.cueBallIndex 0 s.bodies).2

/-- The full boundary pass: first the scan over all bodies, then the
compaction of all marked indices in descending order (source lines 770-864). -/
noncomputable def boundaryPass (pc : PhysicsConfig) (sc : SphereConfig)
    (s : SimState) : SimState :=
  compactMarked (boundaryMarked pc sc s)
    { s with bodies := boundaryScanned pc sc s }

/-- Result of one per-body liveness step: the body's velocity after a
possible revival impulse, the new stationary timer, and the applied
impulse, if any.  The new last-sampled velocity equals the returned
`velocity` (the source's `lastVelocities[index].copy(vel)` copies the
post-impulse velocity, because `vel` aliases `body.velocity`). -/
structure LiveResult where
  velocity : Vec3
  timer : ℝ
  impulse : Option Vec3

/-- One per-body step of Liveness Enforcement (source lines 691-747), for a
non-driver body whose tracker entry exists.  `randomDirRaw` stands for the
vector `((r1-0.5)*2, (r2-0.5)*2, (r3-0.5)*2)` built from three `Math.random`
draws, and `randStrength` for the `Math.random()` draw in
`8 + Math.random() * 6`.  Only the linear part of `applyImpulse` is modelled
(`velocity += impulse * invMass`); the angular part plays no role in any
claim. -/
noncomputable def livenessStep (deltaTime : ℝ) (randomDirRaw : Vec3)
    (randStrength : ℝ) (mass : ℝ) (position velocity lastVelocity : Vec3)
    (timer : ℝ) : LiveResult :=
  let currentSpeed := vnorm velocity
  let velocityChange := |currentSpeed - vnorm lastVelocity|
  if currentSpeed < 0.3 ∧ velocityChange < 0.05 then
    let t := timer + deltaTime
    if t > 2000 then
      let toCenter := vnormalize (-position)
      let randomDir := vnormalize randomDirRaw
      let finalDir := vnormalize ((0.8 : ℝ) • toCenter + (0.2 : ℝ) • randomDir)
      let impulseStrength := 8 + randStrength * 6
      let impulseVector := impulseStrength • finalDir
      { velocity := velocity + (1 / mass) • impulseVector
        timer := 0
        impulse := some impulseVector }
    else
      { velocity := velocity, timer := t, impulse := none }
  else
    { velocity := velocity, timer := 0, impulse := none }

/-- The liveness `forEach` body at registry index `i` (source lines 689-749):
the driver index is skipped entirely; otherwise the body's velocity and its
tracker entries are updated per `livenessStep`.  (If the tracker entry were
missing the source would throw on `lastVelocities[index].copy`; the registry
never outgrows the tracker arrays, so this is modelled as a no-op.) -/
noncomputable def livenessAt (deltaTime : ℝ) (randomDirRaw : Vec3)
    (randStrength : ℝ) (st : SimState) (i : ℕ) : SimState :=
  if i = st.cueBallIndex then st
  else
    match st.bodies[i]?, st.lastVelocities[i]? with
    | some b, some lastVel =>
      let r := livenessStep deltaTime randomDirRaw randStrength b.mass b.position
        b.velocity lastVel (st.stationaryTimes.getD i 0)
      { st with
          bodies := st.bodies.set i { b with velocity := r.velocity }
          stationaryTimes := st.stationaryTimes.set i r.timer
          lastVelocities := st.lastVelocities.set i r.velocity }
    | some _, none => st
    | none, _ => st

/-- The whole Liveness Enforcement pass: the `forEach` over all registry
indices, with per-index random draws. -/
noncomputable def livenessPass (deltaTime : ℝ) (randomDirRaw : ℕ → Vec3)
    (randStrength : ℕ → ℝ) (s : SimState) : SimState :=
  (List.range s.bodies.length).foldl
    (fun st i => livenessAt deltaTime (randomDirRaw i) (randStrength i) st i) s

/-- Squared length `x * x + y * y + z * z` of a raw sample triple.
`Math.random` produces IEEE doubles, which are rational, so the raw samples
are modelled as rational triples. -/
def lengthSquared (q : ℚ × ℚ × ℚ) : ℚ :=
  q.1 * q.1 + q.2.1 * q.2.1 + q.2.2 * q.2.2

/-- The do/while retry condition of `calculateNewImpulseDirection`:
`lengthSquared >= 1 || lengthSquared < 0.1` (source line 372). -/
def retrySample (q : ℚ × ℚ × ℚ) : Prop :=
  1 ≤ lengthSquared q ∨ lengthSquared q < 1 / 10

/-- A raw sample is accepted when the retry condition fails. -/
def acceptSample (q : ℚ × ℚ × ℚ) : Prop := ¬ retrySample q

instance : DecidablePred retrySample := fun q => by unfold retrySample; infer_instance

instance : DecidablePred acceptSample := fun q => by unfold acceptSample; infer_instance

/-- Number of iterations of the do/while loop: the index of the first sample
in the acceptance region.  The loop has no retry cap; it terminates exactly
when the stream eventually produces an accepted sample, which `h` asserts. -/
def rawSampleIdx (s : ℕ → ℚ × ℚ × ℚ) (h : ∃ n, acceptSample (s n)) : ℕ := Nat.find h

/-- The accepted raw sample of the do/while loop. -/
def rawSample (s : ℕ → ℚ × ℚ × ℚ) (h : ∃ n, acceptSample (s n)) : ℚ × ℚ × ℚ :=
  s (rawSampleIdx s h)

/-- `calculateNewImpulseDirection` (source lines 365-376): rejection-sample a
triple with squared length in `[0.1, 1)`, then divide by
`Math.sqrt(lengthSquared)`. -/
noncomputable def calculateNewImpulseDirection (s : ℕ → ℚ × ℚ × ℚ)
    (h : ∃ n, acceptSample (s n)) : Vec3 :=
  let q := rawSample s h
  let length := Real.sqrt ((q.1 : ℝ) * q.1 + (q.2.1 : ℝ) * q.2.1 + (q.2.2 : ℝ) * q.2.2)
  ⟨q.1 / length, q.2.1 / length, q.2.2 / length⟩

/-- The `pendingNewSphereRef` payload while a spawn is in flight (source
lines 67-77), reduced to the fields the claims depend on. -/
structure PendingSpawn where
  startTime : ℝ
  initialPosition : Vec3

/-- Regenerator-level state: the registry, `lastSphereRegenerationTimeRef`,
and the pending-spawn slot. -/
structure RegenState where
  sim : SimState
  lastRegenTime : ℝ
  pending : Option PendingSpawn

/-- `removeRandomSphere` (source lines 408-444): bail out if at most one
sphere remains; otherwise draw indices until one differs from the cue-ball
index, remove that sphere (splice + light detach + driver-index bookkeeping,
the shared `removeSphereAt` primitive) and record the removal time.  `r` is
the stream of `Math.floor(Math.random() * sphereMeshes.length)` draws and `h`
asserts that the do/while loop eventually draws a non-driver index. -/
def removeRandomSphere (time : ℝ) (r : ℕ → ℕ) (st : RegenState)
    (h : ∃ n, r n ≠ st.sim.cueBallIndex) : RegenState :=
  if st.sim.meshes.length ≤ 1 ∨ st.sim.bodies.length ≤ 1 then st
  else
    let randomIndex := r (Nat.find h)
    { st with sim := removeSphereAt st.sim randomIndex, lastRegenTime := time }

/-- `createNewSphere` (source lines 446-513), reduced to the claim-relevant
effects: the new sphere is placed at `direction * (mainRadius * 0.3)` with
the direction drawn from the shared rejection-sampling generator, created
KINEMATIC, added to the physics world but not to the registry arrays, and
recorded as the single pending spawn stamped with the current time. -/
noncomputable def createNewSphere (sc : SphereConfig) (time : ℝ)
    (sDir : ℕ → ℚ × ℚ × ℚ) (hDir : ∃ n, acceptSample (sDir n))
    (st : RegenState) : RegenState :=
  let initialDir := calculateNewImpulseDirection sDir hDir
  let initialDist := sc.mainRadius * 0.3
  { st with
      pending := some { startTime := time, initialPosition := initialDist • initialDir } }

/-- The Population Regenerator cadence block of the tick (source lines
647-660): when the elapsed time since the last recorded regeneration exceeds
`regenerationInterval`, remove one random non-driver sphere if the registry
holds more than `Math.max(2, smallCount / 2)` spheres, and begin a new spawn
if none is pending. -/
noncomputable def regenBlock (sc : SphereConfig) (time : ℝ) (r : ℕ → ℕ)
    (sDir : ℕ → ℚ × ℚ × ℚ) (hDir : ∃ n, acceptSample (sDir n))
    (st : RegenState) (h : ∃ n, r n ≠ st.sim.cueBallIndex) : RegenState :=
  if time - st.lastRegenTime > sc.regenerationInterval then
    let st1 :=
      if (st.sim.meshes.length : ℝ) > max 2 (sc.smallCount / 2) then
        removeRandomSphere time r st h
      else st
    if st1.pending.isNone then createNewSphere sc time sDir hDir st1 else st1
  else st

/-- Activation step of `updateNewSphereAnimation` (source lines 536-560):
once the popup animation has elapsed, the pending body turns DYNAMIC, gets
one outward impulse, is appended to the registry arrays, and the pending slot
is cleared.  Only the registry-level effect is modelled; the appended mesh
carries `isCueBall: false` (source line 489). -/
def activatePendingSphere (mesh : Mesh) (body : Body) (st : RegenState) : RegenState :=
  { st with
      sim := { st.sim with
        meshes := st.sim.meshes ++ [mesh]
        bodies := st.sim.bodies ++ [body] }
      pending := none }

/-- The distinguishable work blocks of one `animate` tick, in source order:
two fixed physics sub-steps (lines 643-645), the regeneration cadence block
(647-660), the pending-spawn animation update (662-664), the cue-ball
impulse scheduler (666), the `time % 120` anti-stall kick (668-687), the
liveness pass (689-749), the pointer raycast impulse (751-768), the boundary
scan (770-837), the removal compaction (839-864) and the render
synchronisation (866-917). -/
inductive Phase where
  | physicsStep
  | populationRegen
  | spawnAnimation
  | driverImpulse
  | antiStallKick
  | liveness
  | pointerImpulse
  | boundary
  | removalCompaction
  | renderSync
  deriving DecidableEq

/-- The phase trace of one tick body, after the activity guard has passed.
The booleans record which of the conditional blocks fire this tick:
`regenDue` is `time - lastSphereRegenerationTime > regenerationInterval`,
`pendingExists` is `pendingNewSphereRef.current.mesh !== null`, `kickDue` is
`time % 120 === 0`, and `pointerHit` is a non-empty raycast intersection. -/
def animatePhases (regenDue pendingExists kickDue pointerHit : Bool) : List Phase :=
  [Phase.physicsStep, Phase.physicsStep]
    ++ (if regenDue then [Phase.populationRegen] else [])
    ++ (if pendingExists then [Phase.spawnAnimation] else [])
    ++ [Phase.driverImpulse]
    ++ (if kickDue then [Phase.antiStallKick] else [])
    ++ [Phase.liveness]
    ++ (if pointerHit then [Phase.pointerImpulse] else [])
    ++ [Phase.boundary, Phase.removalCompaction, Phase.renderSync]

/-- One invocation of `animate`: the guard `if (!isActive) return` (source
line 630) runs before any physics step or state mutation; `isActiveSeen` is
the value of `isActive` that the guard actually reads. -/
def animateTick (isActiveSeen : Bool)
    (regenDue pendingExists kickDue pointerHit : Bool) : List Phase :=
  if isActiveSeen then animatePhases regenDue pendingExists kickDue pointerHit else []

/-- The six phases named by the specification's control-flow sentence. -/
def claimPhaseFilter : Phase → Bool
  | Phase.driverImpulse => true
  | Phase.populationRegen => true
  | Phase.liveness => true
  | Phase.boundary => true
  | Phase.removalCompaction => true
  | Phase.renderSync => true
  | _ => false

/-- Modelled from the spec: the phase order the specification asserts,
"Driver Impulse Scheduler → Population Regenerator → Liveness Enforcement →
Boundary Confinement → removal compaction → Render Sync". -/
def specClaimedOrder : List Phase :=
  [Phase.driverImpulse, Phase.populationRegen, Phase.liveness, Phase.boundary,
    Phase.removalCompaction, Phase.renderSync]

/-- The mount-time value of the React state `isActive`
(`useState(true)`, source line 47). -/
def mountIsActive : Bool := true

/-- JavaScript closure semantics of the guard at source line 630: `animate`
is defined inside the effect that ran on the mount render, so the `isActive`
it reads is the binding of that render.  `setIsActive(false)` (source line
970) replaces the state cell for future renders but never rebinds the
captured variable, so every tick's guard reads the mount-time constant. -/
def capturedIsActive : Bool := mountIsActive

/-- The host component's React state cell holding the `isActive` flag. -/
structure HostState where
  isActiveFlag : Bool

/-- The effect cleanup (source lines 969-993) signals teardown with
`setIsActive(false)`. -/
def teardown (host : HostState) : HostState := { host with isActiveFlag := false }

/-! ### Concrete states used by witnesses and counterexamples -/

/-- A driver (cue-ball) mesh. -/
def witMeshD : Mesh := { meshId := 0, hasLight := true, lightIndex := 4, isCueBall := true }

/-- A plain ambient mesh with an owned light. -/
def witMeshP : Mesh := { meshId := 1, hasLight := true, lightIndex := 5, isCueBall := false }

/-- A plain ambient mesh without a light, with a fresh identity. -/
def mkPlainMesh (n : ℕ) : Mesh :=
  { meshId := n + 2, hasLight := false, lightIndex := -1, isCueBall := false }

/-- A resting body at the center. -/
noncomputable def witBody : Body := { position := 0, velocity := 0, force := 0, mass := 1 }

/-- A two-sphere registry whose driver sits at index 1. -/
noncomputable def witState : SimState :=
  { meshes := [witMeshP, witMeshD]
    bodies := [witBody, witBody]
    cueBallIndex := 1
    lastVelocities := initLastVelocities 14
    stationaryTimes := initStationaryTimes 14
    detached := [] }

/-- An index stream that always draws 1. -/
def c6idx : ℕ → ℕ := fun _ => 1

/-- A sample stream whose first draw is already accepted. -/
def c9stream : ℕ → ℚ × ℚ × ℚ := fun _ => (1 / 2, 1 / 2, 1 / 2)

/-- An eight-sphere registry (driver at index 0) inside a regenerator state
whose cadence is due. -/
noncomputable def c6state : RegenState :=
  { sim :=
    { meshes := witMeshD :: (List.range 7).map mkPlainMesh
      bodies := List.replicate 8 witBody
      cueBallIndex := 0
      lastVelocities := initLastVelocities 14
      stationaryTimes := initStationaryTimes 14
      detached := [] }
    lastRegenTime := 0
    pending := none }

/-- A far-out body used to exercise the exit branch. -/
noncomputable def witBodyFar : Body :=
  { position := ⟨0, 0, 6⟩, velocity := ⟨1, 2, 3⟩, force := 0, mass := 1 }

/-- A body in the outer band (distance 4, inside the 5.1 exit threshold but
beyond the 3.6 band boundary) moving slowly. -/
noncomputable def witBodyBand : Body :=
  { position := ⟨4, 0, 0⟩, velocity := ⟨1, 0, 0⟩, force := 0, mass := 1 }

/-- The concrete liveness step of the C5 witness: a slow body at distance 3
from the center whose timer is about to cross the 2000 ms dwell. -/
noncomputable def witLiveRes : LiveResult :=
  livenessStep 20 ⟨0, 1, 0⟩ (1 / 2) 1 ⟨3, 0, 0⟩ ⟨1 / 10, 0, 0⟩ ⟨1 / 10, 0, 0⟩ 1990

/-! ## Lemmas -/

@[simp] lemma Vec3.zero_x : (0 : Vec3).x = 0 := rfl

@[simp] lemma Vec3.zero_y : (0 : Vec3).y = 0 := rfl

@[simp] lemma Vec3.zero_z : (0 : Vec3).z = 0 := rfl

@[simp] lemma Vec3.add_x (a b : Vec3) : (a + b).x = a.x + b.x := rfl

@[simp] lemma Vec3.add_y (a b : Vec3) : (a + b).y = a.y + b.y := rfl

@[simp] lemma Vec3.add_z (a b : Vec3) : (a + b).z = a.z + b.z := rfl

@[simp] lemma Vec3.neg_x (a : Vec3) : (-a).x = -a.x := rfl

@[simp] lemma Vec3.neg_y (a : Vec3) : (-a).y = -a.y := rfl

@[simp] lemma Vec3.neg_z (a : Vec3) : (-a).z = -a.z := rfl

@[simp] lemma Vec3.smul_x (c : ℝ) (a : Vec3) : (c • a).x = c * a.x := rfl

@[simp] lemma Vec3.smul_y (c : ℝ) (a : Vec3) : (c • a).y = c * a.y := rfl

@[simp] lemma Vec3.smul_z (c : ℝ) (a : Vec3) : (c • a).z = c * a.z := rfl

lemma vnormSq_nonneg (v : Vec3) : 0 ≤ vnormSq v := by
  unfold vnormSq; positivity

lemma vnorm_nonneg (v : Vec3) : 0 ≤ vnorm v := Real.sqrt_nonneg _

lemma vnormSq_eq_zero_iff (v : Vec3) : vnormSq v = 0 ↔ v = 0 := by
  have hsq : vnormSq v = 0 ↔ v.x ^ 2 + v.y ^ 2 + v.z ^ 2 = 0 := Iff.rfl
  constructor
  · intro h
    rw [hsq] at h
    ext <;> simp only [Vec3.zero_x, Vec3.zero_y, Vec3.zero_z] <;>
      nlinarith [sq_nonneg v.x, sq_nonneg v.y, sq_nonneg v.z]
  · intro h; subst h; simp [vnormSq]

lemma vnorm_eq_zero_iff (v : Vec3) : vnorm v = 0 ↔ v = 0 := by
  rw [vnorm, Real.sqrt_eq_zero (vnormSq_nonneg v)]
  exact vnormSq_eq_zero_iff v

lemma vnorm_pos_iff (v : Vec3) : 0 < vnorm v ↔ v ≠ 0 := by
  constructor
  · intro h hv
    rw [(vnorm_eq_zero_iff v).2 hv] at h
    exact lt_irrefl _ h
  · intro hv
    rcases lt_or_eq_of_le (vnorm_nonneg v) with h | h
    · exact h
    · exact absurd ((vnorm_eq_zero_iff v).1 h.symm) hv

lemma vnormSq_smul (c : ℝ) (v : Vec3) : vnormSq (c • v) = c ^ 2 * vnormSq v := by
  simp only [vnormSq, Vec3.smul_x, Vec3.smul_y, Vec3.smul_z]
  ring

lemma vnorm_smul (c : ℝ) (v : Vec3) : vnorm (c • v) = |c| * vnorm v := by
  rw [vnorm, vnormSq_smul, Real.sqrt_mul (sq_nonneg c), Real.sqrt_sq_eq_abs, vnorm]

lemma vnorm_sq (v : Vec3) : vnorm v ^ 2 = vnormSq v :=
  Real.sq_sqrt (vnormSq_nonneg v)

lemma vnormSq_neg (v : Vec3) : vnormSq (-v) = vnormSq v := by
  simp only [vnormSq, Vec3.neg_x, Vec3.neg_y, Vec3.neg_z]
  ring

lemma vnorm_neg (v : Vec3) : vnorm (-v) = vnorm v := by
  rw [vnorm, vnormSq_neg, vnorm]

lemma neg_ne_zero_vec {v : Vec3} (h : v ≠ 0) : -v ≠ 0 := by
  intro hc
  apply h
  have h0 : vnorm (0 : Vec3) = 0 := (vnorm_eq_zero_iff 0).2 rfl
  have h1 := congrArg vnorm hc
  rw [vnorm_neg, h0] at h1
  exact (vnorm_eq_zero_iff v).1 h1

lemma vnorm_vnormalize {v : Vec3} (h : v ≠ 0) : vnorm (vnormalize v) = 1 := by
  have hp : 0 < vnorm v := (vnorm_pos_iff v).2 h
  rw [vnormalize, if_pos hp, vnorm_smul, abs_of_pos (by positivity : (0:ℝ) < 1 / vnorm v)]
  field_simp

lemma vnorm_x_axis (a : ℝ) : vnorm ⟨a, 0, 0⟩ = |a| := by
  unfold vnorm vnormSq
  simp only
  rw [show a ^ 2 + (0:ℝ) ^ 2 + (0:ℝ) ^ 2 = a ^ 2 by ring, Real.sqrt_sq_eq_abs]

/-- If both blend inputs are unit vectors, the 80/20 blend cannot vanish. -/
lemma blend_ne_zero {c u : Vec3} (hc : vnorm c = 1) (hu : vnorm u = 1) :
    (0.8 : ℝ) • c + (0.2 : ℝ) • u ≠ 0 := by
  intro h
  have hx := congrArg Vec3.x h
  have hy := congrArg Vec3.y h
  have hz := congrArg Vec3.z h
  simp only [Vec3.add_x, Vec3.add_y, Vec3.add_z, Vec3.smul_x, Vec3.smul_y, Vec3.smul_z,
    Vec3.zero_x, Vec3.zero_y, Vec3.zero_z] at hx hy hz
  have hu4 : u = (-4 : ℝ) • c := by
    ext <;> simp only [Vec3.smul_x, Vec3.smul_y, Vec3.smul_z] <;> linarith
  have h16 : vnormSq u = 16 * vnormSq c := by
    rw [hu4, vnormSq_smul]; norm_num
  have hu2 : vnormSq u = 1 := by rw [← vnorm_sq, hu]; norm_num
  have hc2 : vnormSq c = 1 := by rw [← vnorm_sq, hc]; norm_num
  rw [hu2, hc2] at h16
  norm_num at h16

/-! ### List lemmas -/

lemma gs_getElem?_eraseIdx (l : List α) (i j : ℕ) :
    (l.eraseIdx i)[j]? = if j < i then l[j]? else l[j + 1]? := by
  induction l generalizing i j with
  | nil => simp [List.eraseIdx]
  | cons a l ih =>
    cases i with
    | zero => simp [List.eraseIdx]
    | succ i =>
      cases j with
      | zero => simp [List.eraseIdx]
      | succ j =>
        simp only [List.eraseIdx, List.getElem?_cons_succ]
        rw [ih]
        simp [Nat.succ_lt_succ_iff]

lemma gs_length_eraseIdx (l : List α) (i : ℕ) (h : i < l.length) :
    (l.eraseIdx i).length = l.length - 1 := by
  induction l generalizing i with
  | nil => simp at h
  | cons a l ih =>
    cases i with
    | zero => simp [List.eraseIdx]
    | succ i =>
      simp only [List.length_cons, Nat.succ_lt_succ_iff] at h
      simp only [List.eraseIdx, List.length_cons, ih i h]
      omega

lemma gs_getElem?_set_ne {l : List α} {i j : ℕ} (x : α) (h : i ≠ j) :
    (l.set i x)[j]? = l[j]? := by
  induction l generalizing i j with
  | nil => simp
  | cons a l ih =>
    cases i with
    | zero =>
      cases j with
      | zero => exact absurd rfl h
      | succ j => simp [List.set]
    | succ i =>
      cases j with
      | zero => simp [List.set]
      | succ j => simpa [List.set] using ih (fun hc => h (by omega))

lemma gs_foldl_inv {β : Type u} {γ : Type v} (P : β → Prop) (f : β → γ → β)
    (l : List γ) (h : ∀ b a, P b → P (f b a)) (b : β) (hb : P b) :
    P (l.foldl f b) := by
  induction l generalizing b with
  | nil => exact hb
  | cons a l ih => exact ih (f b a) (h b a hb)

/-- A list whose positions hold a predicate-satisfying entry exactly at
position `d` has exactly one such entry. -/
lemma gs_countP_eq_one (l : List Mesh) (d : ℕ) (hd : d < l.length)
    (hiff : ∀ j, (∃ m, l[j]? = some m ∧ m.isCueBall = true) ↔ j = d) :
    l.countP (fun m => m.isCueBall) = 1 := by
  induction l generalizing d with
  | nil => simp at hd
  | cons a l ih =>
    cases d with
    | zero =>
      have ha : a.isCueBall = true := by
        obtain ⟨m, hm, hflag⟩ := (hiff 0).2 rfl
        simp only [List.getElem?_cons_zero, Option.some.injEq] at hm
        rw [hm]; exact hflag
      have hzero : l.countP (fun m => m.isCueBall) = 0 := by
        rw [List.countP_eq_zero]
        intro m hmem
        obtain ⟨k, hk⟩ := List.getElem?_of_mem hmem
        intro hflag
        have := (hiff (k + 1)).1 ⟨m, by simpa using hk, by simpa using hflag⟩
        omega
      rw [List.countP_cons, hzero]
      simp [ha]
    | succ d =>
      have ha : ¬ a.isCueBall = true := by
        intro hflag
        have := (hiff 0).1 ⟨a, by simp, hflag⟩
        omega
      have hcount : l.countP (fun m => m.isCueBall) = 1 := by
        refine ih d (by simpa using Nat.lt_of_succ_lt_succ hd) (fun j => ?_)
        constructor
        · rintro ⟨m, hm, hflag⟩
          have := (hiff (j + 1)).1 ⟨m, by simpa using hm, hflag⟩
          omega
        · intro hj
          obtain ⟨m, hm, hflag⟩ := (hiff (d + 1)).2 rfl
          exact ⟨m, by rw [hj]; simpa using hm, hflag⟩
      rw [List.countP_cons, hcount]
      simp [ha]

/-! ### Single-removal driver-index lemmas -/

lemma removeSphereAt_meshes (s : SimState) (i : ℕ) :
    (removeSphereAt s i).meshes = s.meshes.eraseIdx i := rfl

lemma removeSphereAt_cue (s : SimState) (i : ℕ) :
    (removeSphereAt s i).cueBallIndex =
      if i < s.cueBallIndex then s.cueBallIndex - 1 else s.cueBallIndex := rfl

/-- After removing a non-driver index, the tracked driver index still reads
the same mesh. -/
lemma removeSphereAt_points (s : SimState) (i : ℕ) (hne : i ≠ s.cueBallIndex) :
    (removeSphereAt s i).meshes[(removeSphereAt s i).cueBallIndex]? =
      s.meshes[s.cueBallIndex]? := by
  rw [removeSphereAt_meshes, removeSphereAt_cue, gs_getElem?_eraseIdx]
  rcases Nat.lt_or_ge i s.cueBallIndex with hlt | hge
  · rw [if_pos hlt]
    have h1 : ¬ (s.cueBallIndex - 1 < i) := by omega
    rw [if_neg h1]
    congr 1
    omega
  · have hgt : s.cueBallIndex < i := by omega
    rw [if_neg (by omega : ¬ i < s.cueBallIndex), if_pos hgt]

/-- The new driver index is in range of the shortened registry. -/
lemma removeSphereAt_cue_lt (s : SimState) (i : ℕ) (hi : i < s.meshes.length)
    (hne : i ≠ s.cueBallIndex) (hcue : s.cueBallIndex < s.meshes.length) :
    (removeSphereAt s i).cueBallIndex < (removeSphereAt s i).meshes.length := by
  rw [removeSphereAt_meshes, removeSphereAt_cue, gs_length_eraseIdx _ _ hi]
  rcases Nat.lt_or_ge i s.cueBallIndex with hlt | hge
  · rw [if_pos hlt]; omega
  · rw [if_neg (by omega)]; omega

/-- Removing a non-driver index preserves the driver invariant. -/
lemma driverOK_removeSphereAt (s : SimState) (i : ℕ) (hi : i < s.meshes.length)
    (hne : i ≠ s.cueBallIndex) (hok : driverOK s) : driverOK (removeSphereAt s i) := by
  obtain ⟨hcue, hiff⟩ := hok
  refine ⟨removeSphereAt_cue_lt s i hi hne hcue, ?_⟩
  intro j
  unfold isDriverAt
  rw [removeSphereAt_meshes, removeSphereAt_cue, gs_getElem?_eraseIdx]
  rcases Nat.lt_or_ge i s.cueBallIndex with hlt | hge
  · rw [if_pos hlt]
    by_cases hj : j < i
    · rw [if_pos hj]
      have := hiff j
      unfold isDriverAt at this
      rw [this]
      omega
    · rw [if_neg hj]
      have := hiff (j + 1)
      unfold isDriverAt at this
      rw [this]
      omega
  · have hgt : s.cueBallIndex < i := by omega
    rw [if_neg (by omega : ¬ i < s.cueBallIndex)]
    by_cases hj : j < i
    · rw [if_pos hj]
      exact hiff j
    · rw [if_neg hj]
      have := hiff (j + 1)
      unfold isDriverAt at this
      rw [this]
      omega

lemma wf_removeSphereAt (s : SimState) (i : ℕ) (hwf : wf s) : wf (removeSphereAt s i) := by
  unfold wf at hwf ⊢
  simp only [removeSphereAt]
  rcases Nat.lt_or_ge i s.meshes.length with h | h
  · rw [gs_length_eraseIdx _ _ h, gs_length_eraseIdx _ _ (by omega)]; omega
  · rw [List.eraseIdx_of_length_le (by omega), List.eraseIdx_of_length_le (by omega), hwf]

/-! ### Keep/erase characterisation of descending compaction -/

lemma keepIdxFrom_congr {p q : ℕ → Bool} (n : ℕ) (xs : List α)
    (h : ∀ j, n ≤ j → p j = q j) : keepIdxFrom p n xs = keepIdxFrom q n xs := by
  induction xs generalizing n with
  | nil => rfl
  | cons a xs ih =>
    simp only [keepIdxFrom, h n le_rfl, ih (n + 1) (fun j hj => h j (by omega))]

lemma keepIdxFrom_all {p : ℕ → Bool} (n : ℕ) (xs : List α)
    (h : ∀ j, n ≤ j → p j = true) : keepIdxFrom p n xs = xs := by
  induction xs generalizing n with
  | nil => rfl
  | cons a xs ih =>
    simp only [keepIdxFrom, h n le_rfl, if_true, ih (n + 1) (fun j hj => h j (by omega))]

lemma keepIdxFrom_eraseIdx {p : ℕ → Bool} (a n : ℕ) (xs : List α)
    (h : ∀ j, j ≤ a → p (n + j) = true) :
    (keepIdxFrom p n xs).eraseIdx a
      = keepIdxFrom (fun j => p j && !(j == n + a)) n xs := by
  induction xs generalizing n a with
  | nil => rfl
  | cons x xs ih =>
    have hn : p n = true := by simpa using h 0 (Nat.zero_le a)
    cases a with
    | zero =>
      simp only [keepIdxFrom, hn, if_true, List.eraseIdx]
      have hcond : ¬ ((true && !(n == n + 0)) = true) := by simp
      rw [if_neg hcond]
      exact (keepIdxFrom_congr (n + 1) xs (fun j hj => by
        have hne : (j == n + 0) = false := beq_eq_false_iff_ne.2 (by omega)
        rw [hne, Bool.not_false, Bool.and_true])).symm
    | succ a =>
      simp only [keepIdxFrom, hn, if_true, List.eraseIdx]
      have hcond : (true && !(n == n + (a + 1))) = true := by
        have hne : (n == n + (a + 1)) = false := beq_eq_false_iff_ne.2 (by omega)
        simp [hne]
      rw [if_pos hcond]
      simp only [List.cons.injEq, true_and]
      rw [ih a (n + 1) (fun j hj => by
        have := h (j + 1) (by omega)
        simpa [Nat.add_assoc, Nat.add_comm 1 j] using this)]
      exact keepIdxFrom_congr (n + 1) xs (fun j hj => by
        have harith : (n + 1 + a) = n + (a + 1) := by omega
        rw [harith])

lemma keepIdxFrom_getElem?_prefix {p : ℕ → Bool} (n j : ℕ) (xs : List α)
    (h : ∀ k, k ≤ j → p (n + k) = true) :
    (keepIdxFrom p n xs)[j]? = xs[j]? := by
  induction xs generalizing n j with
  | nil => rfl
  | cons x xs ih =>
    have hn : p n = true := by simpa using h 0 (Nat.zero_le j)
    cases j with
    | zero => simp [keepIdxFrom, hn]
    | succ j =>
      simp only [keepIdxFrom, hn, if_true, List.getElem?_cons_succ]
      exact ih (n + 1) j (fun k hk => by
        have := h (k + 1) (by omega)
        simpa [Nat.add_assoc, Nat.add_comm 1 k] using this)

/-- Erasing a strictly ascending index list, largest first, keeps exactly the
entries at unmarked positions. -/
lemma listRemoveAsc_eq_keepIdx (l : List ℕ) (xs : List α) (hl : l.Pairwise (· < ·)) :
    listRemoveAsc l xs = keepIdx (fun j => decide (j ∉ l)) xs := by
  induction l generalizing xs with
  | nil =>
    simp only [listRemoveAsc, List.foldr_nil, keepIdx]
    exact (keepIdxFrom_all 0 xs (fun j _ => by simp)).symm
  | cons a rest ih =>
    rw [List.pairwise_cons] at hl
    obtain ⟨ha, hrest⟩ := hl
    show (listRemoveAsc rest xs).eraseIdx a = _
    rw [ih xs hrest]
    unfold keepIdx
    rw [keepIdxFrom_eraseIdx a 0 xs (fun j hj => by
      have hnm : j ∉ rest := fun hmem => absurd (ha j hmem) (by omega)
      simp [hnm])]
    exact keepIdxFrom_congr 0 xs (fun j _ => by
      simp only [Nat.zero_add, List.mem_cons]
      by_cases hja : j = a <;> by_cases hjr : j ∈ rest <;>
        simp [hja, hjr, beq_eq_false_iff_ne, beq_iff_eq])

lemma compactMarked_eq_foldr (marked : List ℕ) (s : SimState) :
    compactMarked marked s = marked.foldr (fun i st => removeSphereAt st i) s := by
  unfold compactMarked
  induction marked generalizing s with
  | nil => rfl
  | cons a rest ih =>
    simp only [List.reverse_cons, List.foldl_append, List.foldl_cons, List.foldl_nil,
      List.foldr_cons]
    exact ih s ▸ rfl

lemma compactMarked_meshes (marked : List ℕ) (s : SimState) :
    (compactMarked marked s).meshes = listRemoveAsc marked s.meshes := by
  rw [compactMarked_eq_foldr]
  induction marked with
  | nil => rfl
  | cons a rest ih =>
    show (removeSphereAt (rest.foldr (fun i st => removeSphereAt st i) s) a).meshes
        = (listRemoveAsc rest s.meshes).eraseIdx a
    rw [removeSphereAt_meshes, ih]

lemma compactMarked_bodies (marked : List ℕ) (s : SimState) :
    (compactMarked marked s).bodies = listRemoveAsc marked s.bodies := by
  rw [compactMarked_eq_foldr]
  induction marked with
  | nil => rfl
  | cons a rest ih =>
    show (removeSphereAt (rest.foldr (fun i st => removeSphereAt st i) s) a).bodies
        = (listRemoveAsc rest s.bodies).eraseIdx a
    show (rest.foldr (fun i st => removeSphereAt st i) s).bodies.eraseIdx a
        = (listRemoveAsc rest s.bodies).eraseIdx a
    rw [ih]

lemma compactMarked_trackers (marked : List ℕ) (s : SimState) :
    (compactMarked marked s).lastVelocities = s.lastVelocities
    ∧ (compactMarked marked s).stationaryTimes = s.stationaryTimes := by
  rw [compactMarked_eq_foldr]
  induction marked with
  | nil => exact ⟨rfl, rfl⟩
  | cons a rest ih => simpa only [List.foldr_cons, removeSphereAt] using ih

/-- Light-detach log of the compaction loop: one detach event per removed
mesh, in descending index order, each reading the mesh that sat at that index
in the pre-compaction registry. -/
lemma compactMarked_detached (marked : List ℕ) (s : SimState)
    (hl : marked.Pairwise (· < ·)) :
    (compactMarked marked s).detached
      = s.detached ++ ((marked.reverse).map (fun i => detachEvt s.meshes[i]?)).flatten := by
  rw [compactMarked_eq_foldr]
  induction marked generalizing s with
  | nil => simp
  | cons a rest ih =>
    rw [List.pairwise_cons] at hl
    obtain ⟨ha, hrest⟩ := hl
    simp only [List.foldr_cons]
    have hmesh : (rest.foldr (fun i st => removeSphereAt st i) s).meshes[a]? = s.meshes[a]? := by
      have h1 : (rest.foldr (fun i st => removeSphereAt st i) s).meshes
          = listRemoveAsc rest s.meshes := by
        rw [← compactMarked_eq_foldr]; exact compactMarked_meshes rest s
      rw [h1, listRemoveAsc_eq_keepIdx rest s.meshes hrest, keepIdx]
      exact keepIdxFrom_getElem?_prefix 0 a s.meshes (fun k hk => by
        have hnm : k ∉ rest := fun hmem => absurd (ha k hmem) (by omega)
        simp [hnm])
    have hdet : (removeSphereAt (rest.foldr (fun i st => removeSphereAt st i) s) a).detached
        = (rest.foldr (fun i st => removeSphereAt st i) s).detached
          ++ detachEvt (rest.foldr (fun i st => removeSphereAt st i) s).meshes[a]? := rfl
    show (removeSphereAt (rest.foldr (fun i st => removeSphereAt st i) s) a).detached = _
    rw [hdet, hmesh, ih s hrest]
    simp [List.reverse_cons]

/-- Master preservation lemma for descending compaction: the driver pointer
keeps reading the same mesh, stays in range, lockstep is preserved, and the
driver invariant is preserved. -/
lemma compactMarked_driver (l : List ℕ) (s : SimState)
    (hl : l.Pairwise (· < ·)) (hbound : ∀ i ∈ l, i < s.meshes.length)
    (hne : ∀ i ∈ l, i ≠ s.cueBallIndex) (hcue : s.cueBallIndex < s.meshes.length)
    (hwf : wf s) :
    (compactMarked l s).meshes[(compactMarked l s).cueBallIndex]? = s.meshes[s.cueBallIndex]?
    ∧ (compactMarked l s).cueBallIndex < (compactMarked l s).meshes.length
    ∧ wf (compactMarked l s)
    ∧ (driverOK s → driverOK (compactMarked l s)) := by
  induction l using List.reverseRecOn generalizing s with
  | nil => exact ⟨rfl, hcue, hwf, fun h => h⟩
  | append_singleton init b ih =>
    have hsplit : compactMarked (init ++ [b]) s = compactMarked init (removeSphereAt s b) := by
      rw [compactMarked_eq_foldr, compactMarked_eq_foldr, List.foldr_append]
      rfl
    rw [List.pairwise_append] at hl
    obtain ⟨hinit, _, hlt⟩ := hl
    have hb_len : b < s.meshes.length := hbound b (by simp)
    have hb_ne : b ≠ s.cueBallIndex := hne b (by simp)
    set s1 := removeSphereAt s b with hs1
    have hcue1 : s1.cueBallIndex < s1.meshes.length :=
      removeSphereAt_cue_lt s b hb_len hb_ne hcue
    have hwf1 : wf s1 := wf_removeSphereAt s b hwf
    have hlen1 : s1.meshes.length = s.meshes.length - 1 := by
      rw [hs1, removeSphereAt_meshes, gs_length_eraseIdx _ _ hb_len]
    have hbound1 : ∀ i ∈ init, i < s1.meshes.length := by
      intro i hi
      have h1 := hlt i hi b (by simp)
      have h2 := hbound b (by simp)
      omega
    have hne1 : ∀ i ∈ init, i ≠ s1.cueBallIndex := by
      intro i hi
      have h1 := hlt i hi b (by simp)
      have h2 := hne i (by simp [hi])
      rw [hs1, removeSphereAt_cue]
      rcases Nat.lt_or_ge b s.cueBallIndex with hblt | hbge
      · rw [if_pos hblt]; omega
      · rw [if_neg (by omega)]; omega
    obtain ⟨p1, p2, p3, p4⟩ := ih s1 hinit hbound1 hne1 hcue1 hwf1
    rw [hsplit]
    refine ⟨?_, p2, p3, fun hok => p4 (driverOK_removeSphereAt s b hb_len hb_ne hok)⟩
    rw [p1, hs1]
    exact removeSphereAt_points s b hb_ne

/-! ### Boundary-scan lemmas -/

lemma boundaryScanAux_length (pc : PhysicsConfig) (sc : SphereConfig) (cue : ℕ)
    (i : ℕ) (bs : List Body) :
    (boundaryScanAux pc sc cue i bs).1.length = bs.length := by
  induction bs generalizing i with
  | nil => rfl
  | cons b bs ih => simp only [boundaryScanAux, List.length_cons, ih]

/-- Membership characterisation of the marked list. -/
lemma boundaryScanAux_marked_mem (pc : PhysicsConfig) (sc : SphereConfig) (cue : ℕ)
    (i : ℕ) (bs : List Body) :
    ∀ j, j ∈ (boundaryScanAux pc sc cue i bs).2
      ↔ i ≤ j ∧ ∃ b, bs[j - i]? = some b
          ∧ (boundaryUpdateBody pc sc (j == cue) b).2 = true := by
  induction bs generalizing i with
  | nil => intro j; simp [boundaryScanAux]
  | cons b bs ih =>
    intro j
    simp only [boundaryScanAux]
    constructor
    · intro hj
      by_cases hflag : (boundaryUpdateBody pc sc (i == cue) b).2 = true
      · rw [if_pos hflag] at hj
        rcases List.mem_cons.1 hj with rfl | hj
        · exact ⟨le_rfl, b, by simpa using hflag⟩
        · obtain ⟨hle, b', hb', hflag'⟩ := (ih (i + 1) j).1 hj
          refine ⟨by omega, b', ?_, hflag'⟩
          have harith : j - i = (j - (i + 1)) + 1 := by omega
          rw [harith, List.getElem?_cons_succ]
          exact hb'
      · rw [if_neg hflag] at hj
        obtain ⟨hle, b', hb', hflag'⟩ := (ih (i + 1) j).1 hj
        refine ⟨by omega, b', ?_, hflag'⟩
        have harith : j - i = (j - (i + 1)) + 1 := by omega
        rw [harith, List.getElem?_cons_succ]
        exact hb'
    · rintro ⟨hle, b', hb', hflag'⟩
      rcases Nat.eq_or_lt_of_le hle with rfl | hlt
      · simp only [Nat.sub_self, List.getElem?_cons_zero, Option.some.injEq] at hb'
        subst hb'
        rw [hflag']
        exact List.mem_cons_self _ _
      · have harith : j - i = (j - (i + 1)) + 1 := by omega
        rw [harith, List.getElem?_cons_succ] at hb'
        have hmem := (ih (i + 1) j).2 ⟨by omega, b', hb', hflag'⟩
        by_cases hflag : (boundaryUpdateBody pc sc (i == cue) b).2 = true
        · rw [if_pos hflag]; exact List.mem_cons_of_mem _ hmem
        · rw [if_neg hflag]; exact hmem

lemma boundaryScanAux_marked_pairwise (pc : PhysicsConfig) (sc : SphereConfig)
    (cue : ℕ) (i : ℕ) (bs : List Body) :
    (boundaryScanAux pc sc cue i bs).2.Pairwise (· < ·)
    ∧ ∀ j ∈ (boundaryScanAux pc sc cue i bs).2, i ≤ j ∧ j < i + bs.length := by
  induction bs generalizing i with
  | nil => exact ⟨List.Pairwise.nil, by simp [boundaryScanAux]⟩
  | cons b bs ih =>
    obtain ⟨hpw, hrange⟩ := ih (i + 1)
    constructor
    · show (if _ then i :: _ else _).Pairwise (· < ·)
      by_cases hflag : (boundaryUpdateBody pc sc (i == cue) b).2 = true
      · rw [if_pos hflag]
        exact List.pairwise_cons.2 ⟨fun j hj => by have := (hrange j hj).1; omega, hpw⟩
      · rw [if_neg hflag]; exact hpw
    · intro j hj
      show i ≤ j ∧ j < i + (bs.length + 1)
      by_cases hflag : (boundaryUpdateBody pc sc (i == cue) b).2 = true
      · rw [show (boundaryScanAux pc sc cue i (b :: bs)).2
            = i :: (boundaryScanAux pc sc cue (i + 1) bs).2 by
              simp only [boundaryScanAux]; rw [if_pos hflag]] at hj
        rcases List.mem_cons.1 hj with rfl | hj
        · omega
        · have := hrange j hj; omega
      · rw [show (boundaryScanAux pc sc cue i (b :: bs)).2
            = (boundaryScanAux pc sc cue (i + 1) bs).2 by
              simp only [boundaryScanAux]; rw [if_neg hflag]] at hj
        have := hrange j hj; omega

/-- The driver index is never marked: the per-body step only reports `true`
on the non-driver branch. -/
lemma boundaryMarked_ne_cue (pc : PhysicsConfig) (sc : SphereConfig) (s : SimState) :
    ∀ j ∈ boundaryMarked pc sc s, j ≠ s.cueBallIndex := by
  intro j hj hcontra
  obtain ⟨-, b, -, hflag⟩ :=
    (boundaryScanAux_marked_mem pc sc s.cueBallIndex 0 s.bodies j).1 hj
  subst hcontra
  rw [beq_self_eq_true] at hflag
  unfold boundaryUpdateBody at hflag
  by_cases hd : vnorm b.position > sc.mainRadius * pc.exitThreshold
  · simp only [hd, if_true] at hflag
    exact Bool.false_ne_true hflag
  · simp only [hd, if_false] at hflag
    exact Bool.false_ne_true hflag

/-! ### Liveness-pass preservation lemmas -/

/-- One liveness step never touches the meshes, the driver index, the detach
log, the registry length, or the driver's body. -/
lemma livenessAt_preserves (deltaTime : ℝ) (randomDirRaw : Vec3) (randStrength : ℝ)
    (st : SimState) (i : ℕ) :
    (livenessAt deltaTime randomDirRaw randStrength st i).meshes = st.meshes
    ∧ (livenessAt deltaTime randomDirRaw randStrength st i).cueBallIndex = st.cueBallIndex
    ∧ (livenessAt deltaTime randomDirRaw randStrength st i).detached = st.detached
    ∧ (livenessAt deltaTime randomDirRaw randStrength st i).bodies.length = st.bodies.length
    ∧ (livenessAt deltaTime randomDirRaw randStrength st i).bodies[st.cueBallIndex]?
        = st.bodies[st.cueBallIndex]? := by
  unfold livenessAt
  by_cases hi : i = st.cueBallIndex
  · rw [if_pos hi]; exact ⟨rfl, rfl, rfl, rfl, rfl⟩
  · rw [if_neg hi]
    rcases hb : st.bodies[i]? with _ | b
    · exact ⟨rfl, rfl, rfl, rfl, rfl⟩
    · rcases hv : st.lastVelocities[i]? with _ | lastVel
      · exact ⟨rfl, rfl, rfl, rfl, rfl⟩
      · refine ⟨rfl, rfl, rfl, by simp, ?_⟩
        exact gs_getElem?_set_ne _ hi

/-- The Liveness Enforcement pass never touches the meshes, the driver index,
the detach log, the registry length, or the driver's body: the driver is
skipped entirely and no body is added or removed. -/
lemma livenessPass_preserves (deltaTime : ℝ) (randomDirRaw : ℕ → Vec3)
    (randStrength : ℕ → ℝ) (s : SimState) :
    (livenessPass deltaTime randomDirRaw randStrength s).meshes = s.meshes
    ∧ (livenessPass deltaTime randomDirRaw randStrength s).cueBallIndex = s.cueBallIndex
    ∧ (livenessPass deltaTime randomDirRaw randStrength s).detached = s.detached
    ∧ (livenessPass deltaTime randomDirRaw randStrength s).bodies.length = s.bodies.length
    ∧ (livenessPass deltaTime randomDirRaw randStrength s).bodies[s.cueBallIndex]?
        = s.bodies[s.cueBallIndex]? := by
  unfold livenessPass
  refine gs_foldl_inv
    (fun st => st.meshes = s.meshes ∧ st.cueBallIndex = s.cueBallIndex
      ∧ st.detached = s.detached ∧ st.bodies.length = s.bodies.length
      ∧ st.bodies[s.cueBallIndex]? = s.bodies[s.cueBallIndex]?)
    _ _ ?_ s ⟨rfl, rfl, rfl, rfl, rfl⟩
  intro st i hst
  obtain ⟨h1, h2, h3, h4, h5⟩ := hst
  obtain ⟨p1, p2, p3, p4, p5⟩ :=
    livenessAt_preserves deltaTime (randomDirRaw i) (randStrength i) st i
  refine ⟨p1.trans h1, p2.trans h2, p3.trans h3, p4.trans h4, ?_⟩
  rw [← h2] at h5 ⊢
  exact p5.trans h5

/-! ### Spawn-activation lemma -/

/-- Appending a non-driver mesh preserves the driver invariant. -/
lemma driverOK_append (s : SimState) (mesh : Mesh) (body : Body)
    (hm : mesh.isCueBall = false) (hok : driverOK s) :
    driverOK { s with meshes := s.meshes ++ [mesh], bodies := s.bodies ++ [body] } := by
  obtain ⟨hcue, hiff⟩ := hok
  refine ⟨by simp; omega, ?_⟩
  intro j
  unfold isDriverAt
  simp only
  rw [List.getElem?_append]
  by_cases hj : j < s.meshes.length
  · rw [if_pos hj]
    exact hiff j
  · rw [if_neg hj]
    constructor
    · rintro ⟨m, hm', hflag⟩
      rcases Nat.eq_or_lt_of_le (Nat.le_of_not_lt hj) with he | hlt
      · rw [← he] at hm'
        simp only [Nat.sub_self, List.getElem?_cons_zero, Option.some.injEq] at hm'
        rw [← hm'] at hflag
        rw [hm] at hflag
        exact absurd hflag (by simp)
      · rw [show j - s.meshes.length = (j - s.meshes.length - 1) + 1 by omega] at hm'
        simp at hm'
    · intro hj'
      omega

lemma witState_wf : wf witState := by
  unfold wf witState
  simp

lemma witState_driverOK : driverOK witState := by
  constructor
  · simp [witState]
  · intro j
    unfold isDriverAt
    rcases j with _ | j
    · simp [witState, witMeshP]
    rcases j with _ | j
    · simp [witState, witMeshD]
    · simp [witState]

/-! ## Claim theorems -/

/-- C3: after any single-body removal through the shared removal primitive
(used by the Population Regenerator's `removeRandomSphere` and by the
boundary-ejection compaction, the latter processing multi-removal frames in
descending index order), the tracked driver index still points at the driver
body, and the index is decremented exactly when the removed index was
numerically less than the driver's current index. -/
theorem c3_driver_index_tracking (s : SimState) (i : ℕ)
    (hi : i < s.meshes.length) (hne : i ≠ s.cueBallIndex)
    (hcue : s.cueBallIndex < s.meshes.length) :
    (removeSphereAt s i).meshes[(removeSphereAt s i).cueBallIndex]?
        = s.meshes[s.cueBallIndex]?
    ∧ (i < s.cueBallIndex →
        (removeSphereAt s i).cueBallIndex = s.cueBallIndex - 1
        ∧ (removeSphereAt s i).cueBallIndex < s.cueBallIndex)
    ∧ (¬ i < s.cueBallIndex → (removeSphereAt s i).cueBallIndex = s.cueBallIndex)
    ∧ (∀ (time : ℝ) (r : ℕ → ℕ) (st : RegenState) (h : ∃ n, r n ≠ st.sim.cueBallIndex),
        ¬ (st.sim.meshes.length ≤ 1 ∨ st.sim.bodies.length ≤ 1) →
        (removeRandomSphere time r st h).sim = removeSphereAt st.sim (r (Nat.find h)))
    ∧ (∀ l : List ℕ, l.Pairwise (· < ·) → (∀ a ∈ l, a < s.meshes.length) →
        (∀ a ∈ l, a ≠ s.cueBallIndex) → wf s →
        (compactMarked l s).meshes[(compactMarked l s).cueBallIndex]?
          = s.meshes[s.cueBallIndex]?) := by
  refine ⟨removeSphereAt_points s i hne, ?_, ?_, ?_, ?_⟩
  · intro hlt
    rw [removeSphereAt_cue, if_pos hlt]
    omega
  · intro hge
    rw [removeSphereAt_cue, if_neg hge]
  · intro time r st h hguard
    unfold removeRandomSphere
    rw [if_neg hguard]
  · intro l hpw hbound hnel hwf
    exact (compactMarked_driver l s hpw hbound hnel hcue hwf).1

/-- C3 witness: removing index 0 of a two-sphere registry whose driver sits
at index 1 leaves the tracked index reading the driver mesh. -/
theorem c3_witness :
    (0 : ℕ) < witState.meshes.length ∧ (0 : ℕ) ≠ witState.cueBallIndex
    ∧ witState.cueBallIndex < witState.meshes.length
    ∧ (removeSphereAt witState 0).meshes[(removeSphereAt witState 0).cueBallIndex]?
        = witState.meshes[witState.cueBallIndex]? :=
  ⟨by simp [witState], by simp [witState], by simp [witState],
    (c3_driver_index_tracking witState 0 (by simp [witState]) (by simp [witState])
      (by simp [witState])).1⟩

/-- C10 (implicit frame effect): the liveness tracker arrays are fixed-length
arrays sized to the initial population; every removal splices only the mesh
and body arrays and leaves both tracker arrays entirely unchanged, so after
a removal at index `i` every surviving body previously at an index `j > i`
shifts to `j - 1` and is thereafter paired with the tracker entry that was
accumulated at position `j - 1` under a different body: tracker state is
keyed by position, not body identity. -/
theorem c10_trackers_keyed_by_position (s : SimState) (i j count : ℕ)
    (hij : i < j) (hj : j < s.bodies.length) :
    (initLastVelocities count).length = count
    ∧ (initStationaryTimes count).length = count
    ∧ (removeSphereAt s i).lastVelocities = s.lastVelocities
    ∧ (removeSphereAt s i).stationaryTimes = s.stationaryTimes
    ∧ (removeSphereAt s i).bodies[j - 1]? = s.bodies[j]?
    ∧ (removeSphereAt s i).lastVelocities[j - 1]? = s.lastVelocities[j - 1]?
    ∧ ∀ bj bj' : Body, s.bodies[j]? = some bj → s.bodies[j - 1]? = some bj' →
        bj ≠ bj' → (removeSphereAt s i).bodies[j - 1]? ≠ some bj' := by
  have hshift : (removeSphereAt s i).bodies[j - 1]? = s.bodies[j]? := by
    show (s.bodies.eraseIdx i)[j - 1]? = s.bodies[j]?
    rw [gs_getElem?_eraseIdx, if_neg (by omega : ¬ j - 1 < i)]
    congr 1
    omega
  refine ⟨by simp [initLastVelocities], by simp [initStationaryTimes], rfl, rfl,
    hshift, rfl, ?_⟩
  intro bj bj' hbj hbj' hne hcontra
  rw [hshift, hbj] at hcontra
  exact hne (Option.some.injEq _ _ ▸ hcontra)

/-- C10 witness: removing index 0 of the two-sphere registry leaves the
tracker arrays unchanged while the body formerly at index 1 moves to
index 0. -/
theorem c10_witness :
    (0 : ℕ) < 1 ∧ 1 < witState.bodies.length
    ∧ (removeSphereAt witState 0).lastVelocities = witState.lastVelocities
    ∧ (removeSphereAt witState 0).bodies[0]? = witState.bodies[1]? := by
  have h := c10_trackers_keyed_by_position witState 0 1 14 (by norm_num)
    (by simp [witState])
  exact ⟨by norm_num, by simp [witState], h.2.2.1, h.2.2.2.2.1⟩

/-- C2: at all times there is exactly one driver (cue ball) in the registry
and no operation removes it: the Population Regenerator's rejection loop
never selects the driver's index, the boundary pass marks only non-driver
indices (the driver is repositioned instead) and its compaction preserves
the driver invariant, the Liveness Enforcement pass skips the driver
entirely and removes nothing, and spawn activation appends a non-driver
body; the driver invariant forces exactly one driver mesh. -/
theorem c2_single_driver_never_removed (pc : PhysicsConfig) (sc : SphereConfig) :
    (∀ s : SimState, driverOK s → s.meshes.countP (fun m => m.isCueBall) = 1)
    ∧ (∀ (time : ℝ) (r : ℕ → ℕ) (st : RegenState) (h : ∃ n, r n ≠ st.sim.cueBallIndex),
        r (Nat.find h) ≠ st.sim.cueBallIndex
        ∧ ((∀ n, r n < st.sim.meshes.length) → driverOK st.sim →
            driverOK (removeRandomSphere time r st h).sim))
    ∧ (∀ s : SimState, wf s → driverOK s →
        (∀ j ∈ boundaryMarked pc sc s, j ≠ s.cueBallIndex)
        ∧ driverOK (boundaryPass pc sc s))
    ∧ (∀ (dt : ℝ) (rd : ℕ → Vec3) (rs : ℕ → ℝ) (s : SimState), driverOK s →
        driverOK (livenessPass dt rd rs s)
        ∧ (livenessPass dt rd rs s).bodies.length = s.bodies.length)
    ∧ (∀ (mesh : Mesh) (body : Body) (st : RegenState), mesh.isCueBall = false →
        driverOK st.sim → driverOK (activatePendingSphere mesh body st).sim) := by
  refine ⟨?_, ?_, ?_, ?_, ?_⟩
  · intro s hok
    exact gs_countP_eq_one s.meshes s.cueBallIndex hok.1 (fun j => hok.2 j)
  · intro time r st h
    refine ⟨Nat.find_spec h, ?_⟩
    intro hr hok
    unfold removeRandomSphere
    by_cases hguard : st.sim.meshes.length ≤ 1 ∨ st.sim.bodies.length ≤ 1
    · rw [if_pos hguard]; exact hok
    · rw [if_neg hguard]
      exact driverOK_removeSphereAt st.sim _ (hr _) (Nat.find_spec h) hok
  · intro s hwf hok
    refine ⟨boundaryMarked_ne_cue pc sc s, ?_⟩
    have hpw := (boundaryScanAux_marked_pairwise pc sc s.cueBallIndex 0 s.bodies).1
    have hrange := (boundaryScanAux_marked_pairwise pc sc s.cueBallIndex 0 s.bodies).2
    have hwf' : wf { s with bodies := boundaryScanned pc sc s } := by
      unfold wf boundaryScanned
      simp only
      rw [boundaryScanAux_length]
      exact hwf
    have hbound : ∀ j ∈ boundaryMarked pc sc s,
        j < ({ s with bodies := boundaryScanned pc sc s } : SimState).meshes.length := by
      intro j hj
      have := hrange j hj
      have hlen : s.bodies.length = s.meshes.length := hwf
      simp only at this ⊢
      omega
    have hne : ∀ j ∈ boundaryMarked pc sc s,
        j ≠ ({ s with bodies := boundaryScanned pc sc s } : SimState).cueBallIndex :=
      boundaryMarked_ne_cue pc sc s
    exact (compactMarked_driver (boundaryMarked pc sc s)
      { s with bodies := boundaryScanned pc sc s } hpw hbound hne hok.1 hwf').2.2.2 hok
  · intro dt rd rs s hok
    obtain ⟨h1, h2, h3, h4, h5⟩ := livenessPass_preserves dt rd rs s
    refine ⟨⟨?_, ?_⟩, h4⟩
    · rw [h1, h2]; exact hok.1
    · intro j
      unfold isDriverAt
      rw [h1, h2]
      exact hok.2 j
  · intro mesh body st hm hok
    exact driverOK_append st.sim mesh body hm hok

/-- C2 witness: on the concrete two-sphere registry, the boundary pass and
the driver-count law hold as instances. -/
theorem c2_witness :
    wf witState ∧ driverOK witState
    ∧ witState.meshes.countP (fun m => m.isCueBall) = 1
    ∧ driverOK (boundaryPass physicsConfig sphereConfig witState) :=
  ⟨witState_wf, witState_driverOK,
    (c2_single_driver_never_removed physicsConfig sphereConfig).1 witState witState_driverOK,
    ((c2_single_driver_never_removed physicsConfig sphereConfig).2.2.1 witState
      witState_wf witState_driverOK).2⟩

/-- The per-body scan step reports marked exactly for a non-driver beyond
the exit threshold. -/
lemma boundaryUpdateBody_flag (pc : PhysicsConfig) (sc : SphereConfig)
    (isDriver : Bool) (b : Body) :
    (boundaryUpdateBody pc sc isDriver b).2 = true
      ↔ isDriver = false ∧ vnorm b.position > sc.mainRadius * pc.exitThreshold := by
  unfold boundaryUpdateBody
  by_cases hd : vnorm b.position > sc.mainRadius * pc.exitThreshold
  · cases isDriver <;> simp [hd]
  · cases isDriver <;> simp [hd]

/-- C1: in the per-frame boundary pass, every body beyond
`mainRadius * exitThreshold` is handled as follows: the driver is
repositioned to `0.7 * effectiveRadius` from the center along the inward
direction with its velocity zeroed (and is not marked), while a non-driver
body is marked for removal and left untouched by the scan; the marked set is
exactly the set of non-driver indices beyond the threshold; all marked
bodies are removed in a single compaction pass, in descending index order,
only after the scan over all bodies completes, each removal detaching the
owned light of the removed mesh. -/
theorem c1_boundary_exit_pass (pc : PhysicsConfig) (sc : SphereConfig)
    (hR : 0 < sc.mainRadius) (hT : 1 ≤ pc.exitThreshold) :
    (∀ b : Body, vnorm b.position > sc.mainRadius * pc.exitThreshold →
      ((boundaryUpdateBody pc sc true b).1.velocity = 0
        ∧ vnorm (boundaryUpdateBody pc sc true b).1.position
            = 0.7 * (sc.mainRadius * 0.9)
        ∧ (∃ c : ℝ, 0 < c ∧ c < 1
            ∧ (boundaryUpdateBody pc sc true b).1.position = c • b.position)
        ∧ (boundaryUpdateBody pc sc true b).2 = false)
      ∧ ((boundaryUpdateBody pc sc false b).1 = b
        ∧ (boundaryUpdateBody pc sc false b).2 = true))
    ∧ (∀ (s : SimState) (j : ℕ), j ∈ boundaryMarked pc sc s
        ↔ j ≠ s.cueBallIndex ∧ ∃ b, s.bodies[j]? = some b
            ∧ vnorm b.position > sc.mainRadius * pc.exitThreshold)
    ∧ (∀ s : SimState,
        (boundaryPass pc sc s).meshes
          = keepIdx (fun j => decide (j ∉ boundaryMarked pc sc s)) s.meshes
        ∧ (boundaryPass pc sc s).bodies
          = keepIdx (fun j => decide (j ∉ boundaryMarked pc sc s))
              (boundaryScanned pc sc s)
        ∧ (boundaryPass pc sc s).detached
          = s.detached ++ (((boundaryMarked pc sc s).reverse).map
              (fun i => detachEvt s.meshes[i]?)).flatten) := by
  have ht0 : (0 : ℝ) < pc.exitThreshold := lt_of_lt_of_le one_pos hT
  refine ⟨?_, ?_, ?_⟩
  · intro b hfar
    have hd0 : 0 < vnorm b.position := lt_trans (mul_pos hR ht0) hfar
    have hbud : boundaryUpdateBody pc sc true b
        = ({ b with
              position := (sc.mainRadius * 0.9 / vnorm b.position * 0.7) • b.position
              velocity := 0 }, false) := by
      unfold boundaryUpdateBody
      rw [if_pos hfar, if_pos rfl]
    have hfac : 0 < sc.mainRadius * 0.9 / vnorm b.position * 0.7 := by positivity
    refine ⟨⟨by rw [hbud], ?_, ?_, by rw [hbud]⟩, ?_, ?_⟩
    · rw [hbud]
      simp only
      rw [vnorm_smul, abs_of_pos hfac]
      field_simp
      ring
    · refine ⟨sc.mainRadius * 0.9 / vnorm b.position * 0.7, hfac, ?_, by rw [hbud]⟩
      have hlt : sc.mainRadius * 0.63 < vnorm b.position := by
        have hRt : sc.mainRadius ≤ sc.mainRadius * pc.exitThreshold := by nlinarith
        nlinarith
      rw [show sc.mainRadius * 0.9 / vnorm b.position * 0.7
          = sc.mainRadius * 0.63 / vnorm b.position by ring]
      rw [div_lt_one hd0]
      exact hlt
    · unfold boundaryUpdateBody
      rw [if_pos hfar]
      rw [if_neg (by simp : ¬ ((false : Bool) = true))]
    · unfold boundaryUpdateBody
      rw [if_pos hfar]
      rw [if_neg (by simp : ¬ ((false : Bool) = true))]
  · intro s j
    rw [boundaryMarked,
      boundaryScanAux_marked_mem pc sc s.cueBallIndex 0 s.bodies j]
    simp only [Nat.zero_le, Nat.sub_zero, true_and]
    constructor
    · rintro ⟨b, hb, hflag⟩
      obtain ⟨hne, hfar⟩ := (boundaryUpdateBody_flag pc sc _ b).1 hflag
      exact ⟨beq_eq_false_iff_ne.1 hne, b, hb, hfar⟩
    · rintro ⟨hne, b, hb, hfar⟩
      refine ⟨b, hb, (boundaryUpdateBody_flag pc sc _ b).2 ⟨beq_eq_false_iff_ne.2 hne, hfar⟩⟩
  · intro s
    have hpw : (boundaryMarked pc sc s).Pairwise (· < ·) :=
      (boundaryScanAux_marked_pairwise pc sc s.cueBallIndex 0 s.bodies).1
    refine ⟨?_, ?_, ?_⟩
    · rw [show (boundaryPass pc sc s).meshes
          = (compactMarked (boundaryMarked pc sc s)
              { s with bodies := boundaryScanned pc sc s }).meshes from rfl,
        compactMarked_meshes, listRemoveAsc_eq_keepIdx _ _ hpw]
    · rw [show (boundaryPass pc sc s).bodies
          = (compactMarked (boundaryMarked pc sc s)
              { s with bodies := boundaryScanned pc sc s }).bodies from rfl,
        compactMarked_bodies, listRemoveAsc_eq_keepIdx _ _ hpw]
    · rw [show (boundaryPass pc sc s).detached
          = (compactMarked (boundaryMarked pc sc s)
              { s with bodies := boundaryScanned pc sc s }).detached from rfl,
        compactMarked_detached _ _ hpw]

/-- C1 witness: a body at distance 6 from the center (beyond
`5.0 * 1.02 = 5.1`) is repositioned to distance `0.7 * 4.5` with zero
velocity when it is the driver, and marked for removal otherwise. -/
theorem c1_witness :
    (0 : ℝ) < sphereConfig.mainRadius ∧ (1 : ℝ) ≤ physicsConfig.exitThreshold
    ∧ vnorm witBodyFar.position > sphereConfig.mainRadius * physicsConfig.exitThreshold
    ∧ (boundaryUpdateBody physicsConfig sphereConfig true witBodyFar).1.velocity = 0
    ∧ vnorm (boundaryUpdateBody physicsConfig sphereConfig true witBodyFar).1.position
        = 0.7 * (sphereConfig.mainRadius * 0.9)
    ∧ (boundaryUpdateBody physicsConfig sphereConfig false witBodyFar).2 = true := by
  have h1 : (0 : ℝ) < sphereConfig.mainRadius := by norm_num [sphereConfig]
  have h2 : (1 : ℝ) ≤ physicsConfig.exitThreshold := by norm_num [physicsConfig]
  have h36 : vnormSq witBodyFar.position = 36 := by
    unfold witBodyFar vnormSq
    norm_num
  have h6 : vnorm witBodyFar.position = 6 := by
    unfold vnorm
    rw [h36, show (36 : ℝ) = 6 ^ 2 by norm_num, Real.sqrt_sq (by norm_num : (0:ℝ) ≤ 6)]
  have h3 : vnorm witBodyFar.position
      > sphereConfig.mainRadius * physicsConfig.exitThreshold := by
    rw [h6]
    norm_num [sphereConfig, physicsConfig]
  obtain ⟨hdr, hnd⟩ := (c1_boundary_exit_pass physicsConfig sphereConfig h1 h2).1 witBodyFar h3
  exact ⟨h1, h2, h3, hdr.1, hdr.2.1, hnd.2⟩

/-- C4: for every body at or inside the exit threshold, an inward restoring
force is applied exactly when its distance from the center exceeds
`0.8 * effectiveRadius` (with `effectiveRadius = mainRadius * 0.9`), with
magnitude `((d - 0.8*effR) / (0.2*effR))^2 * boundaryForceMultiplier`
directed along the unit vector toward the center, and while in this outer
band the velocity is additionally multiplied by 0.95; at or below
`0.8 * effectiveRadius` only the central-gravity force is applied and the
velocity is untouched. -/
theorem c4_restoring_force_band (pc : PhysicsConfig) (sc : SphereConfig)
    (isDriver : Bool) (b : Body) (hR : 0 < sc.mainRadius)
    (hM : 0 ≤ pc.boundaryForceMultiplier)
    (hin : ¬ vnorm b.position > sc.mainRadius * pc.exitThreshold) :
    (vnorm b.position > sc.mainRadius * 0.9 * 0.8 →
      (boundaryUpdateBody pc sc isDriver b).1.force
          = b.force + pc.centralGravityStrength • centerDirectionOf b
            + (((vnorm b.position - sc.mainRadius * 0.9 * 0.8)
                / (sc.mainRadius * 0.9 * 0.2)) ^ 2
              * pc.boundaryForceMultiplier) • centerDirectionOf b
      ∧ centerDirectionOf b = (1 / vnorm b.position) • (-b.position)
      ∧ vnorm (centerDirectionOf b) = 1
      ∧ vnorm ((((vnorm b.position - sc.mainRadius * 0.9 * 0.8)
            / (sc.mainRadius * 0.9 * 0.2)) ^ 2
          * pc.boundaryForceMultiplier) • centerDirectionOf b)
          = ((vnorm b.position - sc.mainRadius * 0.9 * 0.8)
              / (sc.mainRadius * 0.9 * 0.2)) ^ 2 * pc.boundaryForceMultiplier
      ∧ (vnorm ((0.95 : ℝ) • b.velocity) ≤ 12 →
          (boundaryUpdateBody pc sc isDriver b).1.velocity = (0.95 : ℝ) • b.velocity))
    ∧ (¬ vnorm b.position > sc.mainRadius * 0.9 * 0.8 →
        (boundaryUpdateBody pc sc isDriver b).1.force
            = b.force + pc.centralGravityStrength • centerDirectionOf b
        ∧ (vnorm b.velocity ≤ 12 →
            (boundaryUpdateBody pc sc isDriver b).1.velocity = b.velocity)) := by
  constructor
  · intro hband
    have hd0 : 0 < vnorm b.position := lt_trans (by positivity) hband
    have hcd : centerDirectionOf b = (1 / vnorm b.position) • (-b.position) := by
      unfold centerDirectionOf
      rw [if_pos hd0]
    have hcd1 : vnorm (centerDirectionOf b) = 1 := by
      rw [hcd, vnorm_smul, vnorm_neg, abs_of_pos (by positivity : (0:ℝ) < 1 / vnorm b.position)]
      field_simp
    have hfac : 0 ≤ ((vnorm b.position - sc.mainRadius * 0.9 * 0.8)
        / (sc.mainRadius * 0.9 * 0.2)) ^ 2 * pc.boundaryForceMultiplier :=
      mul_nonneg (sq_nonneg _) hM
    have hbud : boundaryUpdateBody pc sc isDriver b
        = ({ b with
              force := b.force + pc.centralGravityStrength • centerDirectionOf b
                + (((vnorm b.position - sc.mainRadius * 0.9 * 0.8)
                    / (sc.mainRadius * 0.9 * 0.2)) ^ 2
                  * pc.boundaryForceMultiplier) • centerDirectionOf b
              velocity :=
                if vnorm ((0.95 : ℝ) • b.velocity) > 12 then
                  (12 / vnorm ((0.95 : ℝ) • b.velocity)) • (0.95 : ℝ) • b.velocity
                else (0.95 : ℝ) • b.velocity }, false) := by
      unfold boundaryUpdateBody
      rw [if_neg hin]
      simp only []
      rw [if_pos hband]
      simp only []
      by_cases hclamp : vnorm ((0.95 : ℝ) • b.velocity) > 12
      · rw [if_pos hclamp, if_pos hclamp]
      · rw [if_neg hclamp, if_neg hclamp]
    refine ⟨by rw [hbud], hcd, hcd1, ?_, ?_⟩
    · rw [vnorm_smul, abs_of_nonneg hfac, hcd1, mul_one]
    · intro hv
      rw [hbud]
      simp only
      rw [if_neg (by exact not_lt_of_le hv)]
  · intro hband
    have hbud : boundaryUpdateBody pc sc isDriver b
        = ({ b with
              force := b.force + pc.centralGravityStrength • centerDirectionOf b
              velocity :=
                if vnorm b.velocity > 12 then
                  (12 / vnorm b.velocity) • b.velocity
                else b.velocity }, false) := by
      unfold boundaryUpdateBody
      rw [if_neg hin]
      simp only []
      rw [if_neg hband]
      simp only []
      by_cases hclamp : vnorm b.velocity > 12
      · rw [if_pos hclamp, if_pos hclamp]
      · rw [if_neg hclamp, if_neg hclamp]
    refine ⟨by rw [hbud], ?_⟩
    intro hv
    rw [hbud]
    simp only
    rw [if_neg (by exact not_lt_of_le hv)]

/-- C4 witness: at distance 4 with the concrete configuration, the quadratic
restoring force is applied along the unit vector toward the center and the
velocity is damped to `0.95` of itself. -/
theorem c4_witness :
    (0 : ℝ) < sphereConfig.mainRadius ∧ (0 : ℝ) ≤ physicsConfig.boundaryForceMultiplier
    ∧ ¬ vnorm witBodyBand.position
        > sphereConfig.mainRadius * physicsConfig.exitThreshold
    ∧ vnorm witBodyBand.position > sphereConfig.mainRadius * 0.9 * 0.8
    ∧ vnorm ((0.95 : ℝ) • witBodyBand.velocity) ≤ 12
    ∧ (boundaryUpdateBody physicsConfig sphereConfig false witBodyBand).1.velocity
        = (0.95 : ℝ) • witBodyBand.velocity
    ∧ vnorm (centerDirectionOf witBodyBand) = 1 := by
  have h1 : (0 : ℝ) < sphereConfig.mainRadius := by norm_num [sphereConfig]
  have h2 : (0 : ℝ) ≤ physicsConfig.boundaryForceMultiplier := by norm_num [physicsConfig]
  have h4 : vnorm witBodyBand.position = 4 := by
    show vnorm ⟨4, 0, 0⟩ = 4
    rw [vnorm_x_axis]
    norm_num
  have hin : ¬ vnorm witBodyBand.position
      > sphereConfig.mainRadius * physicsConfig.exitThreshold := by
    rw [h4]
    norm_num [sphereConfig, physicsConfig]
  have hband : vnorm witBodyBand.position > sphereConfig.mainRadius * 0.9 * 0.8 := by
    rw [h4]
    norm_num [sphereConfig]
  have hvel : vnorm ((0.95 : ℝ) • witBodyBand.velocity) ≤ 12 := by
    show vnorm ((0.95 : ℝ) • (⟨1, 0, 0⟩ : Vec3)) ≤ 12
    rw [show ((0.95 : ℝ) • (⟨1, 0, 0⟩ : Vec3)) = ⟨0.95, 0, 0⟩ by
      ext <;> simp, vnorm_x_axis]
    norm_num [abs_le]
  obtain ⟨hb, -⟩ := c4_restoring_force_band physicsConfig sphereConfig false witBodyBand
    h1 h2 hin
  obtain ⟨-, -, hcd1, -, hdamp⟩ := hb hband
  exact ⟨h1, h2, hin, hband, hvel, hdamp hvel, hcd1⟩

/-- C5: for every non-driver body each frame, the stationary timer
accumulates the frame's elapsed real time exactly when current speed < 0.3
and the absolute difference of current and last-sampled speed magnitudes is
< 0.05, and is reset to zero otherwise; when the accumulated timer exceeds
2000 ms, exactly one revival impulse is applied — direction the
normalisation of 0.8 x (unit vector toward the center) + 0.2 x (random unit
vector), magnitude `8 + rand * 6` in [8, 14) — and the timer is reset to
zero in the same frame. -/
theorem c5_liveness_revival (deltaTime randStrength mass timer : ℝ)
    (position velocity lastVelocity randomDirRaw : Vec3)
    (hpos : position ≠ 0) (hraw : randomDirRaw ≠ 0)
    (hs0 : 0 ≤ randStrength) (hs1 : randStrength < 1) :
    (vnorm velocity < 0.3 ∧ |vnorm velocity - vnorm lastVelocity| < 0.05 →
      (timer + deltaTime > 2000 →
        (livenessStep deltaTime randomDirRaw randStrength mass position velocity
            lastVelocity timer).timer = 0
        ∧ (livenessStep deltaTime randomDirRaw randStrength mass position velocity
            lastVelocity timer).impulse
          = some ((8 + randStrength * 6) •
              vnormalize ((0.8 : ℝ) • vnormalize (-position)
                + (0.2 : ℝ) • vnormalize randomDirRaw)))
      ∧ (¬ timer + deltaTime > 2000 →
        (livenessStep deltaTime randomDirRaw randStrength mass position velocity
            lastVelocity timer).timer = timer + deltaTime
        ∧ (livenessStep deltaTime randomDirRaw randStrength mass position velocity
            lastVelocity timer).impulse = none))
    ∧ (¬ (vnorm velocity < 0.3 ∧ |vnorm velocity - vnorm lastVelocity| < 0.05) →
        (livenessStep deltaTime randomDirRaw randStrength mass position velocity
            lastVelocity timer).timer = 0
        ∧ (livenessStep deltaTime randomDirRaw randStrength mass position velocity
            lastVelocity timer).impulse = none)
    ∧ (∀ imp, (livenessStep deltaTime randomDirRaw randStrength mass position velocity
            lastVelocity timer).impulse = some imp →
        vnorm imp = 8 + randStrength * 6 ∧ 8 ≤ vnorm imp ∧ vnorm imp < 14)
    ∧ ((livenessStep deltaTime randomDirRaw randStrength mass position velocity
            lastVelocity timer).impulse ≠ none
        ↔ (vnorm velocity < 0.3 ∧ |vnorm velocity - vnorm lastVelocity| < 0.05)
          ∧ timer + deltaTime > 2000) := by
  have hblend : (0.8 : ℝ) • vnormalize (-position)
      + (0.2 : ℝ) • vnormalize randomDirRaw ≠ 0 :=
    blend_ne_zero (vnorm_vnormalize (neg_ne_zero_vec hpos)) (vnorm_vnormalize hraw)
  have hfin : vnorm (vnormalize ((0.8 : ℝ) • vnormalize (-position)
      + (0.2 : ℝ) • vnormalize randomDirRaw)) = 1 := vnorm_vnormalize hblend
  have hstr : (0 : ℝ) < 8 + randStrength * 6 := by linarith
  have hnorm : vnorm ((8 + randStrength * 6) •
      vnormalize ((0.8 : ℝ) • vnormalize (-position)
        + (0.2 : ℝ) • vnormalize randomDirRaw)) = 8 + randStrength * 6 := by
    rw [vnorm_smul, hfin, mul_one, abs_of_pos hstr]
  by_cases hc : vnorm velocity < 0.3 ∧ |vnorm velocity - vnorm lastVelocity| < 0.05
  · by_cases ht : timer + deltaTime > 2000
    · have hstep : livenessStep deltaTime randomDirRaw randStrength mass position
          velocity lastVelocity timer
          = { velocity := velocity + (1 / mass) • ((8 + randStrength * 6) •
                vnormalize ((0.8 : ℝ) • vnormalize (-position)
                  + (0.2 : ℝ) • vnormalize randomDirRaw))
              timer := 0
              impulse := some ((8 + randStrength * 6) •
                vnormalize ((0.8 : ℝ) • vnormalize (-position)
                  + (0.2 : ℝ) • vnormalize randomDirRaw)) } := by
        unfold livenessStep
        rw [if_pos hc]
        simp only []
        rw [if_pos ht]
      refine ⟨fun _ => ⟨fun _ => ⟨by rw [hstep], by rw [hstep]⟩,
          fun hcontra => absurd ht hcontra⟩,
        fun hcontra => absurd hc hcontra, ?_, ?_⟩
      · intro imp himp
        rw [hstep] at himp
        simp only [Option.some.injEq] at himp
        subst himp
        exact ⟨hnorm, by rw [hnorm]; linarith, by rw [hnorm]; linarith⟩
      · rw [hstep]
        simp only [ne_eq, Option.some_ne_none, not_false_eq_true, true_iff]
        exact ⟨hc, ht⟩
    · have hstep : livenessStep deltaTime randomDirRaw randStrength mass position
          velocity lastVelocity timer
          = { velocity := velocity, timer := timer + deltaTime, impulse := none } := by
        unfold livenessStep
        rw [if_pos hc]
        simp only []
        rw [if_neg ht]
      refine ⟨fun _ => ⟨fun hcontra => absurd hcontra ht, fun _ => ⟨by rw [hstep], by rw [hstep]⟩⟩,
        fun hcontra => absurd hc hcontra, ?_, ?_⟩
      · intro imp himp
        rw [hstep] at himp
        simp at himp
      · rw [hstep]
        simp only [ne_eq, not_true_eq_false, false_iff, not_not]
        intro hand
        exact absurd hand.2 ht
  · have hstep : livenessStep deltaTime randomDirRaw randStrength mass position
        velocity lastVelocity timer
        = { velocity := velocity, timer := 0, impulse := none } := by
      unfold livenessStep
      rw [if_neg hc]
    refine ⟨fun hcontra => absurd hcontra hc,
      fun _ => ⟨by rw [hstep], by rw [hstep]⟩, ?_, ?_⟩
    · intro imp himp
      rw [hstep] at himp
      simp at himp
    · rw [hstep]
      simp only [ne_eq, not_true_eq_false, false_iff, not_not]
      intro hand
      exact absurd hand.1 hc

/-- C5 witness: at speed 0.1 with zero speed change and timer 1990 + 20 ms,
the step resets the timer and emits the blended revival impulse, whose
magnitude `8 + 0.5 * 6 = 11` lies in [8, 14). -/
theorem c5_witness :
    ((⟨3, 0, 0⟩ : Vec3) ≠ 0) ∧ ((⟨0, 1, 0⟩ : Vec3) ≠ 0)
    ∧ ((0 : ℝ) ≤ 1 / 2) ∧ ((1 / 2 : ℝ) < 1)
    ∧ vnorm (⟨1 / 10, 0, 0⟩ : Vec3) < 0.3
    ∧ |vnorm (⟨1 / 10, 0, 0⟩ : Vec3) - vnorm (⟨1 / 10, 0, 0⟩ : Vec3)| < 0.05
    ∧ ((1990 : ℝ) + 20 > 2000)
    ∧ witLiveRes.timer = 0
    ∧ witLiveRes.impulse
        = some (((8 : ℝ) + (1 / 2) * 6) •
            vnormalize ((0.8 : ℝ) • vnormalize (-(⟨3, 0, 0⟩ : Vec3))
              + (0.2 : ℝ) • vnormalize (⟨0, 1, 0⟩ : Vec3)))
    ∧ (8 : ℝ) ≤ vnorm (((8 : ℝ) + (1 / 2) * 6) •
        vnormalize ((0.8 : ℝ) • vnormalize (-(⟨3, 0, 0⟩ : Vec3))
          + (0.2 : ℝ) • vnormalize (⟨0, 1, 0⟩ : Vec3)))
    ∧ vnorm (((8 : ℝ) + (1 / 2) * 6) •
        vnormalize ((0.8 : ℝ) • vnormalize (-(⟨3, 0, 0⟩ : Vec3))
          + (0.2 : ℝ) • vnormalize (⟨0, 1, 0⟩ : Vec3))) < 14 := by
  have hp : (⟨3, 0, 0⟩ : Vec3) ≠ 0 := by
    intro h
    have hx := congrArg Vec3.x h
    norm_num at hx
  have hr : (⟨0, 1, 0⟩ : Vec3) ≠ 0 := by
    intro h
    have hy := congrArg Vec3.y h
    norm_num at hy
  have hv : vnorm (⟨1 / 10, 0, 0⟩ : Vec3) = 1 / 10 := by
    rw [vnorm_x_axis]
    norm_num
  have h := c5_liveness_revival 20 (1 / 2) 1 1990 ⟨3, 0, 0⟩ ⟨1 / 10, 0, 0⟩
    ⟨1 / 10, 0, 0⟩ ⟨0, 1, 0⟩ hp hr (by norm_num) (by norm_num)
  have hc : vnorm (⟨1 / 10, 0, 0⟩ : Vec3) < 0.3
      ∧ |vnorm (⟨1 / 10, 0, 0⟩ : Vec3) - vnorm (⟨1 / 10, 0, 0⟩ : Vec3)| < 0.05 := by
    rw [hv]
    norm_num
  have ht : (1990 : ℝ) + 20 > 2000 := by norm_num
  obtain ⟨htimer, himp⟩ := (h.1 hc).1 ht
  obtain ⟨hn, hlo, hhi⟩ := h.2.2.1 _ himp
  exact ⟨hp, hr, by norm_num, by norm_num, hc.1, hc.2, ht, htimer, himp, hlo, hhi⟩

/-- C9: the rejection-sampling direction generator terminates for every
execution in which the random source eventually produces a point in the
acceptance region (there is no retry cap — the generator is total given
that assumption), every accepted raw sample has squared length in
[0.1, 1.0) before normalisation, and the returned vector has unit length. -/
theorem c9_rejection_sampler (s : ℕ → ℚ × ℚ × ℚ) (h : ∃ n, acceptSample (s n)) :
    acceptSample (rawSample s h)
    ∧ 1 / 10 ≤ lengthSquared (rawSample s h)
    ∧ lengthSquared (rawSample s h) < 1
    ∧ vnormSq (calculateNewImpulseDirection s h) = 1
    ∧ vnorm (calculateNewImpulseDirection s h) = 1 := by
  have hacc : acceptSample (rawSample s h) := Nat.find_spec h
  have hrange : lengthSquared (rawSample s h) < 1
      ∧ 1 / 10 ≤ lengthSquared (rawSample s h) := by
    have hr := hacc
    unfold acceptSample retrySample at hr
    push_neg at hr
    exact hr
  set q := rawSample s h with hq
  have hS : (q.1 : ℝ) * q.1 + (q.2.1 : ℝ) * q.2.1 + (q.2.2 : ℝ) * q.2.2
      = ((lengthSquared q : ℚ) : ℝ) := by
    unfold lengthSquared
    push_cast
    ring
  have hSpos : (0 : ℝ) < (q.1 : ℝ) * q.1 + (q.2.1 : ℝ) * q.2.1 + (q.2.2 : ℝ) * q.2.2 := by
    rw [hS]
    have h10 : (1 / 10 : ℚ) ≤ lengthSquared q := hrange.2
    have : (0 : ℚ) < lengthSquared q := lt_of_lt_of_le (by norm_num) h10
    exact_mod_cast this
  have hsqrtpos : 0 < Real.sqrt ((q.1 : ℝ) * q.1 + (q.2.1 : ℝ) * q.2.1
      + (q.2.2 : ℝ) * q.2.2) := Real.sqrt_pos.2 hSpos
  have hsq2 : Real.sqrt ((q.1 : ℝ) * q.1 + (q.2.1 : ℝ) * q.2.1 + (q.2.2 : ℝ) * q.2.2) ^ 2
      = (q.1 : ℝ) * q.1 + (q.2.1 : ℝ) * q.2.1 + (q.2.2 : ℝ) * q.2.2 :=
    Real.sq_sqrt (le_of_lt hSpos)
  have hsq : vnormSq (calculateNewImpulseDirection s h) = 1 := by
    unfold calculateNewImpulseDirection vnormSq
    simp only []
    rw [← hq]
    have hne : Real.sqrt ((q.1 : ℝ) * q.1 + (q.2.1 : ℝ) * q.2.1 + (q.2.2 : ℝ) * q.2.2)
        ≠ 0 := ne_of_gt hsqrtpos
    field_simp
    nlinarith [hsq2]
  refine ⟨hacc, hrange.2, hrange.1, hsq, ?_⟩
  unfold vnorm
  rw [hsq, Real.sqrt_one]

/-- The constant stream `(1/2, 1/2, 1/2)` has squared length `3/4`, inside
the acceptance region, already at index 0. -/
theorem c9stream_accept : ∃ n, acceptSample (c9stream n) :=
  ⟨0, by norm_num [acceptSample, retrySample, lengthSquared, c9stream]⟩

/-- The constant index stream draws 1, which differs from the driver index 0
of the eight-sphere registry already at the first draw. -/
theorem c6idx_ok : ∃ n, c6idx n ≠ c6state.sim.cueBallIndex :=
  ⟨0, by norm_num [c6idx, c6state]⟩

/-- C9 witness: on the concrete accepted stream, the raw sample is in range
and the emitted direction has unit length. -/
theorem c9_witness :
    acceptSample (rawSample c9stream c9stream_accept)
    ∧ 1 / 10 ≤ lengthSquared (rawSample c9stream c9stream_accept)
    ∧ lengthSquared (rawSample c9stream c9stream_accept) < 1
    ∧ vnormSq (calculateNewImpulseDirection c9stream c9stream_accept) = 1
    ∧ vnorm (calculateNewImpulseDirection c9stream c9stream_accept) = 1 :=
  c9_rejection_sampler c9stream c9stream_accept

/-- C7 counterexample: in a tick where every conditional block fires, the
sequence of spec-named phases executed by the code is Population
Regenerator before Driver Impulse Scheduler, which is not the claimed
order (Driver Impulse Scheduler first). -/
theorem c7_counterexample :
    (animatePhases true true true true).filter claimPhaseFilter ≠ specClaimedOrder := by
  decide

/-- C7 (amended): each tick advances the physics world by the fixed sub-step
exactly twice, before all other phases, and then executes the named phases
in the order Population Regenerator (when its cadence fires), then Driver
Impulse Scheduler, then Liveness Enforcement, then Boundary Confinement,
then removal compaction, then Render Sync, before yielding to the next
frame. -/
theorem c7_tick_order_amended :
    ∀ regenDue pendingExists kickDue pointerHit : Bool,
      (animateTick true regenDue pendingExists kickDue pointerHit).take 2
        = [Phase.physicsStep, Phase.physicsStep]
      ∧ (animateTick true regenDue pendingExists kickDue pointerHit).count Phase.physicsStep = 2
      ∧ (animateTick true regenDue pendingExists kickDue pointerHit).filter claimPhaseFilter
        = (if regenDue then [Phase.populationRegen] else [])
          ++ [Phase.driverImpulse, Phase.liveness, Phase.boundary,
              Phase.removalCompaction, Phase.renderSync] := by
  decide

/-- C8 (code bug): teardown clears the host's `isActive` state cell, but the
`animate` closure reads the stale binding captured at mount (always `true`),
so a tick that begins after teardown still steps the physics world twice and
runs every phase, instead of returning before stepping as the specification
and the guard's evident intent require; had the guard read the current
flag, the tick would do nothing. -/
theorem c8_stale_guard_steps_after_teardown :
    (teardown { isActiveFlag := mountIsActive }).isActiveFlag = false
    ∧ animateTick capturedIsActive false false false false ≠ []
    ∧ (animateTick capturedIsActive false false false false).count Phase.physicsStep = 2
    ∧ Phase.renderSync ∈ animateTick capturedIsActive true true true true
    ∧ animateTick (teardown { isActiveFlag := mountIsActive }).isActiveFlag
        false false false false = [] := by
  decide

/-- C6 counterexample: with eight spheres (so seven non-driver bodies —
not more than half the 14-sphere target), a due regeneration cycle still
removes a sphere: the code gates removal on the total population, driver
included, exceeding `max 2 (smallCount / 2)`, not on the non-driver
population exceeding half the target. -/
theorem c6_counterexample :
    (regenBlock sphereConfig 10001 c6idx c9stream c9stream_accept c6state
        c6idx_ok).sim.meshes.length
      = c6state.sim.meshes.length - 1
    ∧ ¬ ((c6state.sim.meshes.countP (fun m => !m.isCueBall) : ℝ)
          > sphereConfig.smallCount / 2) := by
  have hlen : c6state.sim.meshes.length = 8 := by
    simp [c6state]
  have hlenb : c6state.sim.bodies.length = 8 := by
    simp [c6state]
  have hcad : (10001 : ℝ) - c6state.lastRegenTime > sphereConfig.regenerationInterval := by
    show (10001 : ℝ) - 0 > sphereConfig.regenerationInterval
    rw [show sphereConfig.regenerationInterval = (10000 : ℝ) from rfl]
    norm_num
  have hpop : ((c6state.sim.meshes.length : ℕ) : ℝ) > max 2 (sphereConfig.smallCount / 2) := by
    rw [hlen, show sphereConfig.smallCount = (14 : ℝ) from rfl,
      show (14 : ℝ) / 2 = 7 by norm_num, max_eq_right (by norm_num : (2:ℝ) ≤ 7)]
    norm_num
  have hguard : ¬ (c6state.sim.meshes.length ≤ 1 ∨ c6state.sim.bodies.length ≤ 1) := by
    rw [hlen, hlenb]
    norm_num
  have hrem : removeRandomSphere 10001 c6idx c6state c6idx_ok
      = { c6state with
            sim := removeSphereAt c6state.sim 1
            lastRegenTime := 10001 } := by
    unfold removeRandomSphere
    rw [if_neg hguard]
    rfl
  have hp1 : ({ c6state with
      sim := removeSphereAt c6state.sim 1
      lastRegenTime := 10001 } : RegenState).pending = none := rfl
  have hblock : regenBlock sphereConfig 10001 c6idx c9stream c9stream_accept c6state c6idx_ok
      = createNewSphere sphereConfig 10001 c9stream c9stream_accept
          { c6state with
              sim := removeSphereAt c6state.sim 1
              lastRegenTime := 10001 } := by
    unfold regenBlock
    rw [if_pos hcad]
    simp only []
    rw [if_pos hpop, hrem]
    rw [if_pos (by rw [hp1]; rfl)]
  have hcount : c6state.sim.meshes.countP (fun m => !m.isCueBall) = 7 := by
    decide
  constructor
  · rw [hblock]
    show (removeSphereAt c6state.sim 1).meshes.length = c6state.sim.meshes.length - 1
    rw [show (removeSphereAt c6state.sim 1).meshes
        = c6state.sim.meshes.eraseIdx 1 from rfl,
      gs_length_eraseIdx _ _ (by rw [hlen]; norm_num)]
  · rw [hcount, show sphereConfig.smallCount = (14 : ℝ) from rfl]
    norm_num

/-- C6 (amended): the regeneration block acts when the elapsed session time
since the last recorded removal exceeds `regenerationInterval` (10,000 ms);
in a due tick it removes exactly one rejection-sampled non-driver sphere if
and only if the total registry population (driver included) exceeds
`max 2 (smallCount / 2)` — which resets the cadence reference time — and it
begins exactly one new spawn if and only if no spawn is pending; removal and
spawn-initiation within a tick are independent, and a single tick performs
at most one removal and at most one spawn-initiation.  (Because the cadence
reference is reset only by a removal, spawn-initiation alone does not close
the cadence window.) -/
theorem c6_regen_block_amended (sc : SphereConfig) (time : ℝ) (r : ℕ → ℕ)
    (sDir : ℕ → ℚ × ℚ × ℚ) (hDir : ∃ n, acceptSample (sDir n))
    (st : RegenState) (h : ∃ n, r n ≠ st.sim.cueBallIndex)
    (hr : ∀ n, r n < st.sim.meshes.length) (hwf : wf st.sim) :
    (¬ (time - st.lastRegenTime > sc.regenerationInterval) →
        regenBlock sc time r sDir hDir st h = st)
    ∧ (time - st.lastRegenTime > sc.regenerationInterval →
        ((st.sim.meshes.length : ℝ) > max 2 (sc.smallCount / 2) →
            (regenBlock sc time r sDir hDir st h).sim.meshes.length
              = st.sim.meshes.length - 1
            ∧ (regenBlock sc time r sDir hDir st h).lastRegenTime = time
            ∧ r (Nat.find h) ≠ st.sim.cueBallIndex)
        ∧ (¬ ((st.sim.meshes.length : ℝ) > max 2 (sc.smallCount / 2)) →
            (regenBlock sc time r sDir hDir st h).sim = st.sim
            ∧ (regenBlock sc time r sDir hDir st h).lastRegenTime = st.lastRegenTime)
        ∧ (st.pending = none →
            (regenBlock sc time r sDir hDir st h).pending
              = some { startTime := time
                       initialPosition := (sc.mainRadius * 0.3) •
                         calculateNewImpulseDirection sDir hDir })
        ∧ (st.pending ≠ none →
            (regenBlock sc time r sDir hDir st h).pending = st.pending)) := by
  by_cases hcad : time - st.lastRegenTime > sc.regenerationInterval
  · refine ⟨fun hcontra => absurd hcad hcontra, fun _ => ?_⟩
    by_cases hpop : (st.sim.meshes.length : ℝ) > max 2 (sc.smallCount / 2)
    · have hlen3 : 2 < st.sim.meshes.length := by
        have h2 : (2 : ℝ) ≤ max 2 (sc.smallCount / 2) := le_max_left _ _
        have h3 : (2 : ℝ) < (st.sim.meshes.length : ℝ) := lt_of_le_of_lt h2 hpop
        exact_mod_cast h3
      have hguard : ¬ (st.sim.meshes.length ≤ 1 ∨ st.sim.bodies.length ≤ 1) := by
        unfold wf at hwf
        omega
      have hrem : removeRandomSphere time r st h
          = { st with
                sim := removeSphereAt st.sim (r (Nat.find h))
                lastRegenTime := time } := by
        unfold removeRandomSphere
        rw [if_neg hguard]
      have hremlen : (removeSphereAt st.sim (r (Nat.find h))).meshes.length
          = st.sim.meshes.length - 1 := by
        rw [show (removeSphereAt st.sim (r (Nat.find h))).meshes
            = st.sim.meshes.eraseIdx (r (Nat.find h)) from rfl,
          gs_length_eraseIdx _ _ (hr _)]
      by_cases hp : st.pending = none
      · have hp1 : ({ st with
            sim := removeSphereAt st.sim (r (Nat.find h))
            lastRegenTime := time } : RegenState).pending = none := hp
        have hblock : regenBlock sc time r sDir hDir st h
            = createNewSphere sc time sDir hDir
                { st with
                    sim := removeSphereAt st.sim (r (Nat.find h))
                    lastRegenTime := time } := by
          unfold regenBlock
          rw [if_pos hcad]
          simp only []
          rw [if_pos hpop, hrem]
          rw [if_pos (by rw [hp1]; rfl)]
        refine ⟨fun _ => ⟨?_, ?_, Nat.find_spec h⟩, fun hcontra => absurd hpop hcontra,
          fun _ => ?_, fun hcontra => absurd hp hcontra.elim⟩
        · rw [hblock]
          exact hremlen
        · rw [hblock]
          rfl
        · rw [hblock]
          rfl
      · have hp1 : ({ st with
            sim := removeSphereAt st.sim (r (Nat.find h))
            lastRegenTime := time } : RegenState).pending.isNone = false := by
          show st.pending.isNone = false
          rcases ho : st.pending with _ | p
          · exact absurd ho hp
          · rfl
        have hblock : regenBlock sc time r sDir hDir st h
            = { st with
                  sim := removeSphereAt st.sim (r (Nat.find h))
                  lastRegenTime := time } := by
          unfold regenBlock
          rw [if_pos hcad]
          simp only []
          rw [if_pos hpop, hrem]
          rw [if_neg (by rw [hp1]; exact Bool.false_ne_true)]
        refine ⟨fun _ => ⟨?_, ?_, Nat.find_spec h⟩, fun hcontra => absurd hpop hcontra,
          fun hcontra => absurd hcontra hp, fun _ => ?_⟩
        · rw [hblock]
          exact hremlen
        · rw [hblock]
        · rw [hblock]
    · by_cases hp : st.pending = none
      · have hblock : regenBlock sc time r sDir hDir st h
            = createNewSphere sc time sDir hDir st := by
          unfold regenBlock
          rw [if_pos hcad]
          simp only []
          rw [if_neg hpop]
          rw [if_pos (by rw [hp]; rfl)]
        refine ⟨fun hcontra => absurd hcontra hpop, fun _ => ⟨?_, ?_⟩,
          fun _ => ?_, fun hcontra => absurd hp hcontra.elim⟩
        · rw [hblock]
          rfl
        · rw [hblock]
          rfl
        · rw [hblock]
          rfl
      · have hp1 : st.pending.isNone = false := by
          rcases ho : st.pending with _ | p
          · exact absurd ho hp
          · rfl
        have hblock : regenBlock sc time r sDir hDir st h = st := by
          unfold regenBlock
          rw [if_pos hcad]
          simp only []
          rw [if_neg hpop]
          rw [if_neg (by rw [hp1]; exact Bool.false_ne_true)]
        refine ⟨fun hcontra => absurd hcontra hpop, fun _ => ⟨?_, ?_⟩,
          fun hcontra => absurd hcontra hp, fun _ => ?_⟩
        · rw [hblock]
        · rw [hblock]
        · rw [hblock]
  · have hblock : regenBlock sc time r sDir hDir st h = st := by
      unfold regenBlock
      rw [if_neg hcad]
    exact ⟨fun _ => hblock, fun hcontra => absurd hcontra hcad⟩

/-- C6 witness: on the eight-sphere registry with a due cadence, the amended
description holds as an instance: one sphere is removed (the population gate
is open), the cadence reference is reset, and a spawn is begun. -/
theorem c6_witness :
    (∀ n, c6idx n < c6state.sim.meshes.length) ∧ wf c6state.sim
    ∧ ((10001 : ℝ) - c6state.lastRegenTime > sphereConfig.regenerationInterval)
    ∧ ((c6state.sim.meshes.length : ℝ) > max 2 (sphereConfig.smallCount / 2))
    ∧ (regenBlock sphereConfig 10001 c6idx c9stream c9stream_accept c6state
        c6idx_ok).sim.meshes.length = c6state.sim.meshes.length - 1
    ∧ (regenBlock sphereConfig 10001 c6idx c9stream c9stream_accept c6state
        c6idx_ok).lastRegenTime = 10001
    ∧ c6idx (Nat.find c6idx_ok) ≠ c6state.sim.cueBallIndex := by
  have hr : ∀ n, c6idx n < c6state.sim.meshes.length := by
    intro n
    show 1 < c6state.sim.meshes.length
    simp [c6state]
  have hwf : wf c6state.sim := by
    unfold wf
    simp [c6state]
  have hcad : (10001 : ℝ) - c6state.lastRegenTime > sphereConfig.regenerationInterval := by
    show (10001 : ℝ) - 0 > sphereConfig.regenerationInterval
    rw [show sphereConfig.regenerationInterval = (10000 : ℝ) from rfl]
    norm_num
  have hpop : ((c6state.sim.meshes.length : ℕ) : ℝ)
      > max 2 (sphereConfig.smallCount / 2) := by
    rw [show c6state.sim.meshes.length = 8 by simp [c6state],
      show sphereConfig.smallCount = (14 : ℝ) from rfl,
      show (14 : ℝ) / 2 = 7 by norm_num, max_eq_right (by norm_num : (2:ℝ) ≤ 7)]
    norm_num
  obtain ⟨h1, h2, h3⟩ := ((c6_regen_block_amended sphereConfig 10001 c6idx c9stream
    c9stream_accept c6state c6idx_ok hr hwf).2 hcad).1 hpop
  exact ⟨hr, hwf, hcad, hpop, h1, h2, h3⟩

end GalacticSpheres
